import Mathlib

/-!
# Verification of the wfmarket market-data fetch orchestrator

A shallow embedding of `src/market/views.py` (and the model fields it reads
from `src/inventory/models.py` and `src/sources/models.py`), together with
proofs about the embedded definitions.

Modelling conventions:
* The network layer is replaced by an explicit per-item, per-attempt
  `HttpResponse` oracle; `fetch_item_orders` keeps the classification and
  filtering logic of the Python function of the same name.
* The thread pools process completions in an unspecified order; the embedding
  folds items sequentially in list order.  Claims proved here concern
  membership, counts and published snapshots, which the source computes
  identically for every completion order.
* Python's `int((successful/total)*100)` float truncation is modelled as
  natural floor division `successful * 100 / total`.
* The Django cache is modelled by threading the current progress record and
  collecting every published record in a trace list.
-/

namespace WfMarket

/-- A tracked inventory item (`inventory.models.Item`).  `price` and
`quantity` are `PositiveIntegerField`s, hence naturals; `source` is nullable. -/
structure Item where
  name : String
  id : Nat
  category : String
  source : Option String
  quantity : Nat
  price : Nat
deriving Repr, DecidableEq

/-- One order from the upstream API payload: the fields of the order object
and of its nested `user` object that `views.py` reads. -/
structure Order where
  order_type : String
  platinum : Int
  quantity : Nat
  mod_rank : Nat
  user_status : String
  ingame_name : String
  reputation : Int
deriving Repr, DecidableEq

/-- Outcome of one HTTP `GET` as seen by `fetch_item_orders`: either a
response with a status code and a decoded order list, or a raised
`requests.RequestException` carrying a message. -/
inductive HttpResponse where
  | resp (code : Nat) (orders : List Order)
  | exn (msg : String)
deriving Repr, DecidableEq

/-- The classified result dictionary returned by `fetch_item_orders`
(its `status` / `data` / `error` fields). -/
inductive FetchResult where
  | success (data : List Order)
  | rate_limited
  | failed (error : String)
deriving Repr, DecidableEq

/-- Per-item, per-attempt fetch outcomes: `oracle name a` is the HTTP outcome
for item `name` at attempt `a` (`0` = first pass, `k ≥ 1` = retry pass `k`). -/
def FetchOracle : Type := String → Nat → HttpResponse

/-- `balances.get(key, 0)` on the source-balance dictionary built by
`get_source_balances`, modelled as an association list. -/
def balanceLookup (balances : List (String × Nat)) (key : String) : Nat :=
  match balances.find? (fun p => p.1 = key) with
  | some p => p.2
  | none => 0

/-- Python `str.strip()` at the character-list level: drop leading and
trailing whitespace. -/
def pyStrip (s : String) : String :=
  ⟨((s.data.dropWhile Char.isWhitespace).reverse.dropWhile Char.isWhitespace).reverse⟩

/-- Python `str.lower()` at the character-list level (ASCII case mapping). -/
def pyLower (s : String) : String :=
  ⟨s.data.map Char.toLower⟩

/-- `is_item_affordable` (views.py lines 102-110): items with a falsy or
whitespace-only source are always affordable, otherwise the price is compared
with the balance found under the lower-cased, stripped source name
(`item.source.lower().strip()`). -/
def is_item_affordable (item : Item) (source_balances : List (String × Nat)) : Bool :=
  match item.source with
  | none => true
  | some s =>
    if pyStrip s = "" then true
    else decide (item.price ≤ balanceLookup source_balances (pyStrip (pyLower s)))

/-- The character class kept by `re.sub(r"[^a-z0-9_]", "", name)`. -/
def allowedChar (c : Char) : Bool :=
  ('a' ≤ c && c ≤ 'z') || ('0' ≤ c && c ≤ '9') || c = '_'

/-- `re.sub(r"_+", "_", s)`: collapse every run of consecutive underscores to
a single underscore. -/
def collapseUnderscores : List Char → List Char
  | [] => []
  | [c] => [c]
  | c1 :: c2 :: cs =>
    if c1 = '_' && c2 = '_' then collapseUnderscores (c2 :: cs)
    else c1 :: collapseUnderscores (c2 :: cs)

/-- `s.strip("_")`: drop leading and trailing underscores. -/
def stripUnderscores (cs : List Char) : List Char :=
  (((cs.dropWhile (fun c => c = '_')).reverse).dropWhile (fun c => c = '_')).reverse

/-- `clean_item_name` (views.py lines 77-89): lower-case, spaces to
underscores, strip characters outside `[a-z0-9_]`, collapse repeated
underscores, trim leading/trailing underscores. -/
def clean_item_name (name : String) : String :=
  let cs := name.data.map Char.toLower
  let cs := cs.map (fun c => if c = ' ' then '_' else c)
  let cs := cs.filter allowedChar
  ⟨stripUnderscores (collapseUnderscores cs)⟩

/-- The per-item endpoint URL built in views.py. -/
def orderUrl (name : String) : String :=
  "https://api.warframe.market/v1/items/" ++ clean_item_name name ++ "/orders"

/-- The buy-order filter of `fetch_item_orders`: keep orders that are
buy-side and whose user is currently in game. -/
def buyOrderFilter (o : Order) : Bool :=
  o.order_type = "buy" && o.user_status = "ingame"

/-- `buy_orders.sort(key=..., reverse=True)`: stable sort by platinum,
highest first. -/
def sortOrdersByPlatinum (orders : List Order) : List Order :=
  orders.mergeSort (fun a b => decide (b.platinum ≤ a.platinum))

/-- `fetch_item_orders` (views.py lines 112-152) with the network call
replaced by its outcome: classify the response, and on HTTP 200 filter and
sort the buy orders.  The rate limiter is modelled separately
(`wait_if_needed` below); it does not affect the returned classification. -/
def fetch_item_orders (response : HttpResponse) : FetchResult :=
  match response with
  | .exn msg => .failed msg
  | .resp code orders =>
    if code = 429 then .rate_limited
    else if code ≠ 200 then .failed ("HTTP " ++ toString code)
    else .success (sortOrdersByPlatinum (orders.filter buyOrderFilter))

/-- One row of `market_data` as assembled in `fetch_market_data_background`
(both in the first pass and in the retry loop, which build identical dicts). -/
structure MarketRow where
  item : String
  item_id : Nat
  category : String
  source : String
  inventory_quantity : Nat
  buyer : String
  platinum : Int
  order_quantity : Nat
  rank : Nat
  user_reputation : Int
  user_status : String
  is_affordable : Bool
deriving Repr, DecidableEq

/-- One entry of `failed_items`. -/
structure FailedItem where
  item : String
  error : String
  url : String
deriving Repr, DecidableEq

/-- The progress record stored in the cache under `fetch_progress_{session}`.
Keys that a given Python dict omits (e.g. `successful_items` in the initial
record) are modelled as their zero/empty defaults; no claim reads them before
they are first written. -/
structure ProgressRecord where
  status : String
  market_data : List MarketRow
  failed_items : List FailedItem
  total_orders : Nat
  total_failed : Nat
  progress : Nat
  processed_items : Nat
  successful_items : Nat
  total_items : Nat
deriving Repr, DecidableEq

/-- `'source': item.source or 'Unknown'`. -/
def sourceOrUnknown : Option String → String
  | none => "Unknown"
  | some s => if s = "" then "Unknown" else s

/-- The `market_data.append({...})` dictionary for one order of one item. -/
def orderRow (item : Item) (aff : Bool) (o : Order) : MarketRow :=
  { item := item.name
    item_id := item.id
    category := item.category
    source := sourceOrUnknown item.source
    inventory_quantity := item.quantity
    buyer := o.ingame_name
    platinum := o.platinum
    order_quantity := o.quantity
    rank := o.mod_rank
    user_reputation := o.reputation
    user_status := o.user_status
    is_affordable := aff }

/-- The `failed_items.append({...})` dictionary for one item. -/
def mkFailedItem (name : String) (error : String) : FailedItem :=
  { item := name, error := error, url := orderUrl name }

/-- The accumulating state owned by `fetch_market_data_background`.
`succeeded` is ghost instrumentation: the names whose fetch succeeded, logged
exactly where the source increments `successful_items`. -/
structure RunState where
  market_data : List MarketRow
  failed_items : List FailedItem
  processed_items : Nat
  successful_items : Nat
  succeeded : List String
deriving Repr, DecidableEq

/-- `int((successful_items / total_items) * 100) if total_items > 0 else 100`,
float truncation modelled as natural floor division. -/
def progressPercent (successful total : Nat) : Nat :=
  if total = 0 then 100 else successful * 100 / total

/-- `update_progress_only` (views.py lines 269-285): merge status and counters
into the existing cached record. -/
def update_progress_only (total : Nat) (st : RunState) (status : String)
    (cache : ProgressRecord) : ProgressRecord :=
  { cache with
    status := status
    progress := progressPercent st.successful_items total
    processed_items := st.processed_items
    successful_items := st.successful_items
    total_items := total }

/-- `sorted(market_data, key=lambda x: x['platinum'], reverse=True)`. -/
def sortRowsByPlatinum (rows : List MarketRow) : List MarketRow :=
  rows.mergeSort (fun a b => decide (b.platinum ≤ a.platinum))

/-- `update_full_data` (views.py lines 287-303): replace the cached record
with a full snapshot, rows sorted by platinum descending. -/
def update_full_data (total : Nat) (st : RunState) (status : String) : ProgressRecord :=
  { status := status
    market_data := sortRowsByPlatinum st.market_data
    failed_items := st.failed_items
    total_orders := st.market_data.length
    total_failed := st.failed_items.length
    progress := progressPercent st.successful_items total
    processed_items := st.processed_items
    successful_items := st.successful_items
    total_items := total }

/-- `max_retry_attempts = 10` (views.py line 367). -/
def max_retry_attempts : Nat := 10

/-- `max_workers=10` of the first-pass executor (views.py line 306). -/
def firstPassMaxWorkers : Nat := 10

/-- `max_workers=10` of the retry-pass executor (views.py line 377). -/
def retryMaxWorkers : Nat := 10

/-- First-pass fold context: run state, pending retry names, the batch
counter, the cached record, and the trace of all published records. -/
structure PassCtx where
  st : RunState
  retry_queue : List String
  batch_count : Nat
  cache : ProgressRecord
  trace : List ProgressRecord
deriving Repr, DecidableEq

/-- One iteration of the first-pass `as_completed` loop (views.py lines
313-361) for the completion of `item`. -/
def firstPassStep (balances : List (String × Nat)) (oracle : FetchOracle)
    (total : Nat) (ctx : PassCtx) (item : Item) : PassCtx :=
  let st0 : RunState := { ctx.st with processed_items := ctx.st.processed_items + 1 }
  let ctx1 : PassCtx :=
    match fetch_item_orders (oracle item.name 0) with
    | .success orders =>
      let aff := is_item_affordable item balances
      let st1 : RunState :=
        { st0 with
          successful_items := st0.successful_items + 1
          market_data := st0.market_data ++ orders.map (orderRow item aff)
          succeeded := st0.succeeded ++ [item.name] }
      let cache1 := update_progress_only total st1 "fetching" ctx.cache
      { ctx with st := st1, cache := cache1, trace := ctx.trace ++ [cache1] }
    | .rate_limited =>
      { ctx with st := st0, retry_queue := ctx.retry_queue ++ [item.name] }
    | .failed e =>
      { ctx with st := { st0 with failed_items := st0.failed_items ++ [mkFailedItem item.name e] } }
  let bc := ctx1.batch_count + 1
  if 10 ≤ bc then
    let cache2 := update_full_data total ctx1.st "fetching"
    { ctx1 with batch_count := 0, cache := cache2, trace := ctx1.trace ++ [cache2] }
  else { ctx1 with batch_count := bc }

/-- The whole first pass, folding completions in list order. -/
def firstPass (balances : List (String × Nat)) (oracle : FetchOracle)
    (total : Nat) : List Item → PassCtx → PassCtx
  | [], ctx => ctx
  | item :: rest, ctx =>
    firstPass balances oracle total rest (firstPassStep balances oracle total ctx item)

/-- The f-string `f'retrying (attempt {k})'`. -/
def retryAttemptStatus (k : Nat) : String :=
  "retrying (attempt " ++ toString k ++ ")"

/-- The f-string `f'retrying (remaining: {n})'`. -/
def retryRemainingStatus (n : Nat) : String :=
  "retrying (remaining: " ++ toString n ++ ")"

/-- Retry-pass fold context: run state, the queue being built for the next
attempt, the cached record, and the publish trace. -/
structure RetryCtx where
  st : RunState
  next_queue : List String
  cache : ProgressRecord
  trace : List ProgressRecord
deriving Repr, DecidableEq

/-- One iteration of the retry-pass `as_completed` loop (views.py lines
383-426) for the completion of the item named `name` at attempt `attempt`. -/
def retryStep (balances : List (String × Nat)) (oracle : FetchOracle)
    (items : List Item) (total : Nat) (attempt : Nat)
    (ctx : RetryCtx) (name : String) : RetryCtx :=
  match fetch_item_orders (oracle name attempt) with
  | .success orders =>
    let st1 : RunState :=
      { ctx.st with
        successful_items := ctx.st.successful_items + 1
        succeeded := ctx.st.succeeded ++ [name] }
    let st2 : RunState :=
      match items.find? (fun i => i.name = name) with
      | some item =>
        let aff := is_item_affordable item balances
        { st1 with market_data := st1.market_data ++ orders.map (orderRow item aff) }
      | none => st1
    let cache1 := update_progress_only total st2 "retrying" ctx.cache
    { st := st2, next_queue := ctx.next_queue, cache := cache1, trace := ctx.trace ++ [cache1] }
  | .rate_limited =>
    { ctx with next_queue := ctx.next_queue ++ [name] }
  | .failed e =>
    { ctx with st := { ctx.st with failed_items := ctx.st.failed_items ++ [mkFailedItem name e] } }

/-- One whole retry pass over the queue. -/
def retryPass (balances : List (String × Nat)) (oracle : FetchOracle)
    (items : List Item) (total : Nat) (attempt : Nat) :
    List String → RetryCtx → RetryCtx
  | [], ctx => ctx
  | name :: rest, ctx =>
    retryPass balances oracle items total attempt rest
      (retryStep balances oracle items total attempt ctx name)

/-- One iteration of the retry loop body before the queue swap: the
`retrying (attempt k)` publish followed by the whole pass over the queue. -/
def retryRound (balances : List (String × Nat)) (oracle : FetchOracle)
    (items : List Item) (total : Nat) (attempt : Nat) (st : RunState)
    (queue : List String) (trace : List ProgressRecord) : RetryCtx :=
  let rec0 := update_full_data total st (retryAttemptStatus attempt)
  retryPass balances oracle items total attempt queue
    { st := st, next_queue := [], cache := rec0, trace := trace ++ [rec0] }

/-- The `while retry_queue and retry_attempt < max_retry_attempts` loop
(views.py lines 370-437), with `fuel = max_retry_attempts - retry_attempt`
and `attemptsDone` the number of retry passes already run.  The `time.sleep(2)`
cooldown has no observable effect in the embedding. -/
def retryLoop (balances : List (String × Nat)) (oracle : FetchOracle)
    (items : List Item) (total : Nat) :
    Nat → Nat → RunState → List String → ProgressRecord → List ProgressRecord →
    RunState × List String × ProgressRecord × List ProgressRecord
  | 0, _, st, queue, cache, trace => (st, queue, cache, trace)
  | fuel + 1, attemptsDone, st, queue, cache, trace =>
    if queue.isEmpty then (st, queue, cache, trace)
    else
      let ctx1 := retryRound balances oracle items total (attemptsDone + 1) st queue trace
      let queue1 := ctx1.next_queue
      if queue1.isEmpty then (ctx1.st, queue1, ctx1.cache, ctx1.trace)
      else
        let rec1 := update_full_data total ctx1.st (retryRemainingStatus queue1.length)
        retryLoop balances oracle items total fuel (attemptsDone + 1) ctx1.st queue1 rec1
          (ctx1.trace ++ [rec1])

/-- The record written at session start (views.py lines 193-202); the dict has
no `successful_items` key, modelled as `0`. -/
def initRecord (total : Nat) : ProgressRecord :=
  { status := "starting"
    market_data := []
    failed_items := []
    total_orders := 0
    total_failed := 0
    progress := 0
    processed_items := 0
    successful_items := 0
    total_items := total }

/-- The initial first-pass context of a background run: empty accumulators
and the initial `starting` record both cached and already published. -/
def runCtx0 (items : List Item) : PassCtx :=
  { st := { market_data := [], failed_items := [], processed_items := 0,
            successful_items := 0, succeeded := [] },
    retry_queue := [], batch_count := 0, cache := initRecord items.length,
    trace := [initRecord items.length] }

/-- `fetch_market_data_background` (views.py lines 252-448): first pass,
post-pass snapshot, bounded retry loop, final `complete` snapshot.  Returns
the final run state, the retry queue left over when the loop ended, the final
record, and the trace of every record published during the session (the
initial `starting` record included). -/
def runBackground (balances : List (String × Nat)) (oracle : FetchOracle)
    (items : List Item) :
    RunState × List String × ProgressRecord × List ProgressRecord :=
  let total := items.length
  let ctx1 := firstPass balances oracle total items (runCtx0 items)
  let afterRec := update_full_data total ctx1.st
    (if ctx1.retry_queue.isEmpty then "completing" else "retrying")
  let r := retryLoop balances oracle items total max_retry_attempts 0
    ctx1.st ctx1.retry_queue afterRec (ctx1.trace ++ [afterRec])
  let finalRec := update_full_data total r.1 "complete"
  (r.1, r.2.1, finalRec, r.2.2.2 ++ [finalRec])

/-- Response of the `start` action of `fetch_market_data` (views.py lines
175-213): either an immediate complete record (no session id generated, no
background thread started) or a started session. -/
inductive StartResult where
  | immediate (record : ProgressRecord)
  | started (total_items : Nat)
deriving Repr, DecidableEq

/-- The `action == 'start'` branch of `fetch_market_data`.  The immediate
JSON response carries only the six fields listed at views.py lines 180-187;
the remaining `ProgressRecord` fields are modelled as their zero defaults. -/
def fetch_market_data_start (items : List Item) : StartResult :=
  if items.isEmpty then
    .immediate
      { status := "complete"
        market_data := []
        failed_items := []
        total_orders := 0
        total_failed := 0
        progress := 100
        processed_items := 0
        successful_items := 0
        total_items := 0 }
  else .started items.length

/-- Rows of `market_data` attributed to the item named `name`. -/
def rowsFor (name : String) (rows : List MarketRow) : List MarketRow :=
  rows.filter (fun r => r.item = name)

/-- Entries of `failed_items` attributed to the item named `name`. -/
def failuresFor (name : String) (fs : List FailedItem) : List FailedItem :=
  fs.filter (fun f => f.item = name)

/-- An item is retry-exhausted when every attempt the run can make (the first
pass plus all `max_retry_attempts` retry passes) is rate-limited. -/
def exhausted (oracle : FetchOracle) (name : String) : Prop :=
  ∀ a, a ≤ max_retry_attempts → fetch_item_orders (oracle name a) = .rate_limited

/-- The final fate of one item under the retry loop, mirrored from the loop
structure: scan attempts `attemptsDone+1, …, attemptsDone+fuel` for the first
decisive (non-rate-limited) outcome. -/
inductive ItemFate where
  | fetched (orders : List Order) (attempt : Nat)
  | failedAt (error : String) (attempt : Nat)
  | dropped
deriving Repr, DecidableEq

/-- Fate of a rate-limited item across the retry passes. -/
def retryFate (oracle : FetchOracle) (name : String) : Nat → Nat → ItemFate
  | 0, _ => .dropped
  | fuel + 1, attemptsDone =>
    match fetch_item_orders (oracle name (attemptsDone + 1)) with
    | .success orders => .fetched orders (attemptsDone + 1)
    | .failed e => .failedAt e (attemptsDone + 1)
    | .rate_limited => retryFate oracle name fuel (attemptsDone + 1)

/-- Fate of an item across the whole run: decided in the first pass unless
rate-limited, then by the retry passes. -/
def itemFate (oracle : FetchOracle) (name : String) : ItemFate :=
  match fetch_item_orders (oracle name 0) with
  | .success orders => .fetched orders 0
  | .failed e => .failedAt e 0
  | .rate_limited => retryFate oracle name max_retry_attempts 0

/-- Final run state of a background session. -/
def finalState (balances : List (String × Nat)) (oracle : FetchOracle)
    (items : List Item) : RunState :=
  (runBackground balances oracle items).1

/-- Names still rate-limited when the retry loop ended. -/
def finalQueue (balances : List (String × Nat)) (oracle : FetchOracle)
    (items : List Item) : List String :=
  (runBackground balances oracle items).2.1

/-- The last record published for a session. -/
def finalRecord (balances : List (String × Nat)) (oracle : FetchOracle)
    (items : List Item) : ProgressRecord :=
  (runBackground balances oracle items).2.2.1

/-- Every record published for a session, in publication order. -/
def runTrace (balances : List (String × Nat)) (oracle : FetchOracle)
    (items : List Item) : List ProgressRecord :=
  (runBackground balances oracle items).2.2.2

/-- The five status literals of the spec's `ProgressRecord`. -/
def coreStatuses : List String :=
  ["starting", "fetching", "retrying", "completing", "complete"]

/-- The `while self.requests and self.requests[0] <= now - self.time_window`
eviction loop of `RateLimiter.wait_if_needed`.  Timestamps are synthetic
clock values in an arbitrary linearly ordered ring (instantiable at `ℚ`, `ℝ`
or, for computation, `ℤ`), oldest first. -/
def evictOld {α : Type} [LinearOrderedCommRing α] (window now : α) (rs : List α) : List α :=
  rs.dropWhile (fun t => decide (t ≤ now - window))

/-- `RateLimiter.wait_if_needed` (views.py lines 57-75) over a synthetic
clock: evict stale timestamps, and when the cap is reached sleep exactly
`time_window - (now - oldest)` (modelled as advancing the clock by that
amount), re-evict, then record the current time.  Returns the new timestamp
sequence and the recorded timestamp. -/
def wait_if_needed {α : Type} [LinearOrderedCommRing α] (maxReq : Nat) (window : α)
    (rs : List α) (now : α) : List α × α :=
  let rs1 := evictOld window now rs
  if maxReq ≤ rs1.length then
    let sleepTime := window - (now - rs1.headD 0)
    if 0 < sleepTime then
      let now2 := now + sleepTime
      (evictOld window now2 rs1 ++ [now2], now2)
    else (rs1 ++ [now], now)
  else (rs1 ++ [now], now)

/-- The timestamps recorded by a sequence of `wait_if_needed` calls whose
entry clock readings are `nows`. -/
def rlTimes {α : Type} [LinearOrderedCommRing α] (maxReq : Nat) (window : α) :
    List α → List α → List α
  | _, [] => []
  | rs, now :: rest =>
    let p := wait_if_needed maxReq window rs now
    p.2 :: rlTimes maxReq window p.1 rest

/-- A synthetic clock trace is admissible when each call's entry reading is
at least the time at which the previous call returned (real clocks are
monotone across the sleep inside the previous call). -/
def rlAdmissible {α : Type} [LinearOrderedCommRing α] (maxReq : Nat) (window : α) :
    List α → α → List α → Bool
  | _, _, [] => true
  | rs, last, now :: rest =>
    decide (last ≤ now) &&
      rlAdmissible maxReq window (wait_if_needed maxReq window rs now).1
        (wait_if_needed maxReq window rs now).2 rest

/-- Is a fetch result the rate-limited signal? -/
def FetchResult.isRateLimited : FetchResult → Bool
  | .rate_limited => true
  | _ => false

/-- Is a fetch result a success? -/
def FetchResult.isSuccess : FetchResult → Bool
  | .success _ => true
  | _ => false

/-- Rows contributed by the first pass, in item order. -/
def firstPassRows (balances : List (String × Nat)) (oracle : FetchOracle)
    (items : List Item) : List MarketRow :=
  items.flatMap (fun i =>
    match fetch_item_orders (oracle i.name 0) with
    | .success orders => orders.map (orderRow i (is_item_affordable i balances))
    | _ => [])

/-- Failure entries contributed by the first pass. -/
def firstPassFails (oracle : FetchOracle) (items : List Item) : List FailedItem :=
  items.flatMap (fun i =>
    match fetch_item_orders (oracle i.name 0) with
    | .failed e => [mkFailedItem i.name e]
    | _ => [])

/-- Names queued for retry by the first pass. -/
def firstPassRetry (oracle : FetchOracle) (items : List Item) : List String :=
  (items.filter (fun i => (fetch_item_orders (oracle i.name 0)).isRateLimited)).map Item.name

/-- Names that succeeded in the first pass. -/
def firstPassSucc (oracle : FetchOracle) (items : List Item) : List String :=
  (items.filter (fun i => (fetch_item_orders (oracle i.name 0)).isSuccess)).map Item.name

/-- Rows contributed by one retry pass at `attempt` over queue `q`. -/
def retryPassRows (balances : List (String × Nat)) (oracle : FetchOracle)
    (items : List Item) (attempt : Nat) (q : List String) : List MarketRow :=
  q.flatMap (fun n =>
    match fetch_item_orders (oracle n attempt) with
    | .success orders =>
      match items.find? (fun i => i.name = n) with
      | some item => orders.map (orderRow item (is_item_affordable item balances))
      | none => []
    | _ => [])

/-- Failure entries contributed by one retry pass. -/
def retryPassFails (oracle : FetchOracle) (attempt : Nat) (q : List String) : List FailedItem :=
  q.flatMap (fun n =>
    match fetch_item_orders (oracle n attempt) with
    | .failed e => [mkFailedItem n e]
    | _ => [])

/-- Names still rate-limited after one retry pass. -/
def retryPassNext (oracle : FetchOracle) (attempt : Nat) (q : List String) : List String :=
  q.filter (fun n => (fetch_item_orders (oracle n attempt)).isRateLimited)

/-- Names that succeeded in one retry pass. -/
def retryPassSucc (oracle : FetchOracle) (attempt : Nat) (q : List String) : List String :=
  q.filter (fun n => (fetch_item_orders (oracle n attempt)).isSuccess)

/-- The rows an item of a given fate contributes to `market_data`. -/
def fateRows (balances : List (String × Nat)) (items : List Item) (name : String) :
    ItemFate → List MarketRow
  | .fetched orders _ =>
    match items.find? (fun i => i.name = name) with
    | some item => orders.map (orderRow item (is_item_affordable item balances))
    | none => []
  | _ => []

/-- The failure entries an item of a given fate contributes to `failed_items`. -/
def fateFailures (name : String) : ItemFate → List FailedItem
  | .failedAt e _ => [mkFailedItem name e]
  | _ => []

/-- Did a fate end in a successful fetch? -/
def ItemFate.isFetched : ItemFate → Bool
  | .fetched _ _ => true
  | _ => false

/-- The "success" final state of an item: its fetch succeeded (it contributed
its — possibly zero — rows) and it is not recorded in `failed_items`. -/
def successState (st : RunState) (name : String) : Prop :=
  name ∈ st.succeeded ∧ failuresFor name st.failed_items = []

instance (st : RunState) (name : String) : Decidable (successState st name) :=
  inferInstanceAs (Decidable (name ∈ st.succeeded ∧ failuresFor name st.failed_items = []))

/-- The "failure" final state of an item: exactly one entry in `failed_items`
and no rows in `market_data`. -/
def failureState (st : RunState) (name : String) : Prop :=
  (failuresFor name st.failed_items).length = 1 ∧ rowsFor name st.market_data = []

instance (st : RunState) (name : String) : Decidable (failureState st name) :=
  inferInstanceAs
    (Decidable ((failuresFor name st.failed_items).length = 1 ∧ rowsFor name st.market_data = []))

instance (oracle : FetchOracle) (name : String) : Decidable (exhausted oracle name) :=
  inferInstanceAs
    (Decidable (∀ a, a ≤ max_retry_attempts →
      fetch_item_orders (oracle name a) = .rate_limited))

/-- A published status allowed by the implementation: one of the five
literals, or one of the two parameterised retry statuses. -/
def statusOk (s : String) : Prop :=
  s ∈ coreStatuses ∨ (∃ k, s = retryAttemptStatus k) ∨ (∃ n, s = retryRemainingStatus n)

/-- `t` lies in the trailing window `(a - window, a]`. -/
def inTrailingWindow {α : Type} [LinearOrderedCommRing α] (window a t : α) : Bool :=
  decide (a - window < t) && decide (t ≤ a)

/-- Concrete scenario: an upstream that always answers HTTP 429. -/
def always429 : FetchOracle := fun _ _ => HttpResponse.resp 429 []

/-- Concrete scenario: a single tracked item named `"x"`. -/
def soloItem : Item :=
  { name := "x", id := 1, category := "mod", source := none, quantity := 1, price := 10 }

/-- C4 scenario, item A's in-game buy order. -/
def c4OrderIngame : Order :=
  { order_type := "buy", platinum := 30, quantity := 1, mod_rank := 0,
    user_status := "ingame", ingame_name := "u1", reputation := 5 }

/-- C4 scenario, item A's offline-user buy order. -/
def c4OrderOffline : Order :=
  { order_type := "buy", platinum := 40, quantity := 1, mod_rank := 0,
    user_status := "offline", ingame_name := "u2", reputation := 2 }

/-- C4 scenario, item A. -/
def c4ItemA : Item :=
  { name := "A", id := 1, category := "mod", source := none, quantity := 1, price := 10 }

/-- C4 scenario, item B. -/
def c4ItemB : Item :=
  { name := "B", id := 2, category := "mod", source := none, quantity := 1, price := 10 }

/-- C4 scenario, item C. -/
def c4ItemC : Item :=
  { name := "C", id := 3, category := "mod", source := none, quantity := 1, price := 10 }

/-- C4 scenario item list. -/
def c4Items : List Item := [c4ItemA, c4ItemB, c4ItemC]

/-- C4 scenario oracle: A answers 200 with one in-game and one offline buy
order; B answers 429 on the first pass and 200 on retry; C answers 500. -/
def c4Oracle : FetchOracle := fun n a =>
  if n = "A" then HttpResponse.resp 200 [c4OrderIngame, c4OrderOffline]
  else if n = "B" then
    (if a = 0 then HttpResponse.resp 429 [] else HttpResponse.resp 200 [c4OrderIngame])
  else HttpResponse.resp 500 []

/-- The retry-pass index (or first pass, `0`) at which a fate was decided. -/
def ItemFate.attemptOf : ItemFate → Option Nat
  | .fetched _ a => some a
  | .failedAt _ a => some a
  | .dropped => none

/-- Invariant of the rate-limiter model, relating the full append history `H`
of recorded timestamps, the current deque `rs`, and the time `last` at which
the previous call returned: the deque is a suffix of the history whose
dropped prefix is at least one window old, the deque is within the cap,
every recorded timestamp is in the past, and no trailing window of the
history holds more than `maxReq` timestamps. -/
def RLInv {α : Type} [LinearOrderedCommRing α] (maxReq : Nat) (window : α)
    (H rs : List α) (last : α) : Prop :=
  (∃ k, k ≤ H.length ∧ rs = H.drop k ∧ ∀ t ∈ H.take k, t + window ≤ last) ∧
  rs.length ≤ maxReq ∧
  (∀ t ∈ H, t ≤ last) ∧
  (∀ a : α, H.countP (inTrailingWindow window a) ≤ maxReq)

/-- No two adjacent characters are both underscores. -/
def noDoubledUnderscore : List Char → Bool
  | c1 :: c2 :: cs => !(c1 = '_' && c2 = '_') && noDoubledUnderscore (c2 :: cs)
  | _ => true

/-- Adjacent-pair predicate: the two characters are not both underscores. -/
def notUU (a b : Char) : Prop := ¬(a = '_' ∧ b = '_')

/-- C6 scenario item: `source = "red veil"`, `price = 25000`. -/
def redVeilItem : Item :=
  { name := "r", id := 9, category := "mod", source := some "red veil",
    quantity := 1, price := 25000 }

/-- **C6.** `is_item_affordable` returns `true` whenever the item's source is
absent or empty (empty after whitespace trimming, the emptiness test the code
performs); otherwise it equals `price ≤ balance` with the balance looked up
under the lower-cased, whitespace-trimmed source, defaulting to zero; and on
the `"red veil"`/25000 scenario it is `false` against balance 20000 and
`true` against balance 30000. -/
theorem c6_is_affordable :
    (∀ (item : Item) (balances : List (String × Nat)),
        (item.source = none ∨ ∃ s, item.source = some s ∧ pyStrip s = "") →
          is_item_affordable item balances = true) ∧
    (∀ (item : Item) (balances : List (String × Nat)) (s : String),
        item.source = some s → ¬ pyStrip s = "" →
          is_item_affordable item balances =
            decide (item.price ≤ balanceLookup balances (pyStrip (pyLower s)))) ∧
    is_item_affordable redVeilItem [("red veil", 20000)] = false ∧
    is_item_affordable redVeilItem [("red veil", 30000)] = true := by
  refine ⟨?_, ?_, ?_, ?_⟩
  · rintro item balances (h | ⟨s, hs, ht⟩)
    · simp [is_item_affordable, h]
    · simp [is_item_affordable, hs, ht]
  · intro item balances s hs hne
    simp [is_item_affordable, hs, hne]
  · decide
  · decide

/-- Witness for `c6_is_affordable`: its conditional clauses applied at
concrete inputs (a whitespace-only source, and the red-veil scenario). -/
theorem c6_is_affordable_witness :
    is_item_affordable
      { name := "w", id := 0, category := "", source := some "  ",
        quantity := 0, price := 3 } [] = true ∧
    is_item_affordable redVeilItem [("red veil", 20000)] =
      decide (redVeilItem.price ≤
        balanceLookup [("red veil", 20000)] (pyStrip (pyLower "red veil"))) :=
  ⟨c6_is_affordable.1 _ [] (Or.inr ⟨"  ", rfl, by decide⟩),
   c6_is_affordable.2.1 redVeilItem _ "red veil" rfl (by decide)⟩

/-- **C7.** Every full snapshot the orchestrator publishes has its
`market_data` sorted by `platinum` descending, and re-running the
sort-by-platinum-descending on the published list is the identity. -/
theorem c7_full_snapshot_sorted (total : Nat) (st : RunState) (status : String) :
    List.Pairwise (fun a b : MarketRow => b.platinum ≤ a.platinum)
        (update_full_data total st status).market_data ∧
    sortRowsByPlatinum (update_full_data total st status).market_data =
      (update_full_data total st status).market_data := by
  have hs : List.Pairwise
      (fun a b : MarketRow => (fun x y : MarketRow => decide (y.platinum ≤ x.platinum)) a b = true)
      (sortRowsByPlatinum st.market_data) := by
    apply List.sorted_mergeSort
    · intro a b c h1 h2
      simp only [decide_eq_true_eq] at h1 h2 ⊢
      exact le_trans h2 h1
    · intro a b
      simp only [Bool.or_eq_true, decide_eq_true_eq]
      exact le_total b.platinum a.platinum
  constructor
  · have h2 := hs
    simp only [decide_eq_true_eq] at h2
    exact h2
  · exact List.mergeSort_of_sorted hs

/-- **C9** counterexample: the first-pass pool (`max_workers=10`) is not
strictly wider than the retry pool (`max_workers=10`). -/
theorem c9_counterexample : ¬ retryMaxWorkers < firstPassMaxWorkers := by decide

/-- **C9** amended: both the first-pass and the retry worker pools are 10
wide — equal, not strictly decreasing. -/
theorem c9_pool_widths :
    firstPassMaxWorkers = 10 ∧ retryMaxWorkers = 10 ∧
      firstPassMaxWorkers = retryMaxWorkers := by decide

/-- **C10.** A start request with an empty tracked-item list is answered
immediately with a complete, empty, progress-100 record; no session id is
generated and no background run starts (the `immediate` constructor). -/
theorem c10_empty_items_immediate (items : List Item) (h : items = []) :
    fetch_market_data_start items = StartResult.immediate
      { status := "complete", market_data := [], failed_items := [], total_orders := 0,
        total_failed := 0, progress := 100, processed_items := 0, successful_items := 0,
        total_items := 0 } := by
  subst h
  rfl

/-- Witness for `c10_empty_items_immediate` at the empty list. -/
theorem c10_empty_items_immediate_witness :
    fetch_market_data_start [] = StartResult.immediate
      { status := "complete", market_data := [], failed_items := [], total_orders := 0,
        total_failed := 0, progress := 100, processed_items := 0, successful_items := 0,
        total_items := 0 } :=
  c10_empty_items_immediate [] rfl

theorem noDoubledUnderscore_iff (l : List Char) :
    noDoubledUnderscore l = true ↔ List.Chain' notUU l := by
  induction l with
  | nil => simp [noDoubledUnderscore]
  | cons c1 tl ih =>
    cases tl with
    | nil => simp [noDoubledUnderscore]
    | cons c2 cs =>
      rw [List.chain'_cons, ← ih]
      simp only [noDoubledUnderscore, Bool.and_eq_true, Bool.not_eq_true',
        Bool.and_eq_false_iff, decide_eq_false_iff_not, notUU]
      constructor
      · rintro ⟨h1, h2⟩
        refine ⟨?_, h2⟩
        rintro ⟨ha, hb⟩
        rcases h1 with h | h
        · exact h ha
        · exact h hb
      · rintro ⟨h1, h2⟩
        refine ⟨?_, h2⟩
        by_cases ha : c1 = '_'
        · exact Or.inr (fun hb => h1 ⟨ha, hb⟩)
        · exact Or.inl ha

theorem head?_collapseUnderscores (l : List Char) :
    (collapseUnderscores l).head? = l.head? := by
  induction l with
  | nil => rfl
  | cons c1 tl ih =>
    cases tl with
    | nil => rfl
    | cons c2 cs =>
      simp only [collapseUnderscores]
      split
      · rename_i h
        simp only [Bool.and_eq_true, decide_eq_true_eq] at h
        rw [ih]
        simp [h.1, h.2]
      · rfl

theorem mem_collapseUnderscores {c : Char} :
    ∀ l : List Char, c ∈ collapseUnderscores l → c ∈ l := by
  intro l
  induction l with
  | nil => simp [collapseUnderscores]
  | cons c1 tl ih =>
    cases tl with
    | nil => simp [collapseUnderscores]
    | cons c2 cs =>
      simp only [collapseUnderscores]
      split
      · intro h
        exact List.mem_cons_of_mem c1 (ih h)
      · intro h
        rcases List.mem_cons.mp h with h | h
        · subst h
          exact List.mem_cons_self _ _
        · exact List.mem_cons_of_mem c1 (ih h)

theorem chain'_collapseUnderscores (l : List Char) :
    List.Chain' notUU (collapseUnderscores l) := by
  induction l with
  | nil => simp [collapseUnderscores]
  | cons c1 tl ih =>
    cases tl with
    | nil => simp [collapseUnderscores]
    | cons c2 cs =>
      simp only [collapseUnderscores]
      split
      · exact ih
      · rename_i h
        rw [List.chain'_cons']
        refine ⟨?_, ih⟩
        intro y hy
        rw [head?_collapseUnderscores] at hy
        simp only [List.head?_cons, Option.mem_def, Option.some.injEq] at hy
        subst hy
        simp only [Bool.and_eq_true, decide_eq_true_eq, not_and] at h
        intro hc
        rcases hc with ⟨ha, hb⟩
        simp [ha, hb] at h

theorem collapseUnderscores_eq_self :
    ∀ l : List Char, List.Chain' notUU l → collapseUnderscores l = l := by
  intro l
  induction l with
  | nil => intro _; rfl
  | cons c1 tl ih =>
    cases tl with
    | nil => intro _; rfl
    | cons c2 cs =>
      intro h
      rw [List.chain'_cons] at h
      simp only [collapseUnderscores]
      rw [if_neg, ih h.2]
      simp only [Bool.and_eq_true, decide_eq_true_eq]
      intro hc
      exact h.1 hc

theorem stripUnderscores_subset (l : List Char) :
    ∀ c ∈ stripUnderscores l, c ∈ l := by
  intro c hc
  unfold stripUnderscores at hc
  rw [List.mem_reverse] at hc
  have h1 : c ∈ (l.dropWhile (fun c => c = '_')).reverse :=
    (List.dropWhile_suffix _).subset hc
  rw [List.mem_reverse] at h1
  exact (List.dropWhile_suffix _).subset h1

theorem head?_dropWhile_ne_underscore (l : List Char) :
    (l.dropWhile (fun c => c = '_')).head? ≠ some '_' := by
  have h := List.head?_dropWhile_not (fun c : Char => c = '_') l
  intro hc
  rw [hc] at h
  simp at h

theorem getLast?_stripUnderscores_ne (l : List Char) :
    (stripUnderscores l).getLast? ≠ some '_' := by
  unfold stripUnderscores
  rw [List.getLast?_reverse]
  exact head?_dropWhile_ne_underscore _

theorem head?_stripUnderscores_ne (l : List Char) :
    (stripUnderscores l).head? ≠ some '_' := by
  unfold stripUnderscores
  rw [List.head?_reverse]
  cases hd : ((l.dropWhile (fun c => c = '_')).reverse).dropWhile (fun c => c = '_') with
  | nil => simp
  | cons d ds =>
    have hsuf : (d :: ds) <:+ (l.dropWhile (fun c => c = '_')).reverse := by
      rw [← hd]
      exact List.dropWhile_suffix _
    obtain ⟨u, hu⟩ := hsuf
    obtain ⟨x, hx⟩ := Option.isSome_iff_exists.mp
      (List.getLast?_isSome.mpr (by simp : (d :: ds) ≠ ([] : List Char)))
    have heq : ((l.dropWhile (fun c => c = '_')).reverse).getLast? = some x := by
      rw [← hu, List.getLast?_append, hx]
      rfl
    rw [List.getLast?_reverse] at heq
    have hne := head?_dropWhile_ne_underscore l
    rw [heq] at hne
    rw [hx]
    exact hne

theorem chain'_stripUnderscores {l : List Char} (h : List.Chain' notUU l) :
    List.Chain' notUU (stripUnderscores l) := by
  have flipImp : ∀ a b : Char, notUU a b → flip notUU a b := by
    intro a b hab
    simp only [flip, notUU] at *
    intro hc
    exact hab ⟨hc.2, hc.1⟩
  unfold stripUnderscores
  rw [List.chain'_reverse]
  apply List.Chain'.imp flipImp
  apply List.Chain'.suffix _ (List.dropWhile_suffix _)
  rw [List.chain'_reverse]
  apply List.Chain'.imp flipImp
  exact List.Chain'.suffix h (List.dropWhile_suffix _)

theorem stripUnderscores_eq_self :
    ∀ l : List Char, l.head? ≠ some '_' → l.getLast? ≠ some '_' →
      stripUnderscores l = l := by
  intro l h1 h2
  unfold stripUnderscores
  have hdrop : l.dropWhile (fun c => c = '_') = l := by
    cases l with
    | nil => rfl
    | cons c cs =>
      apply List.dropWhile_cons_of_neg
      simp only [List.head?_cons, ne_eq, Option.some.injEq] at h1
      simp [h1]
  rw [hdrop]
  cases hrev : l.reverse with
  | nil =>
    have : l = [] := by simpa using congrArg List.reverse hrev
    simp [this]
  | cons d ds =>
    have hd : d ≠ '_' := by
      have : l.reverse.head? = l.getLast? := List.head?_reverse l
      rw [hrev] at this
      simp only [List.head?_cons] at this
      intro he
      exact h2 (by rw [← this, he])
    rw [List.dropWhile_cons_of_neg (by simp [hd])]
    rw [← hrev, List.reverse_reverse]

theorem map_eq_self_of_forall {α : Type} {f : α → α} :
    ∀ l : List α, (∀ c ∈ l, f c = c) → l.map f = l := by
  intro l
  induction l with
  | nil => intro _; rfl
  | cons c cs ih =>
    intro h
    simp only [List.map_cons]
    rw [h c (List.mem_cons_self c cs), ih (fun x hx => h x (List.mem_cons_of_mem c hx))]

theorem toLower_of_allowed {c : Char} (h : allowedChar c = true) : c.toLower = c := by
  simp only [allowedChar, Bool.or_eq_true, Bool.and_eq_true, decide_eq_true_eq] at h
  have hno : ¬(c.toNat ≥ 65 ∧ c.toNat ≤ 90) := by
    rcases h with (h | h) | h
    · have h1 : 97 ≤ c.toNat := by
        have h2 := h.1
        simp only [Char.le_def, UInt32.le_def, BitVec.le_def] at h2
        exact h2
      omega
    · have h1 : c.toNat ≤ 57 := by
        have h2 := h.2
        simp only [Char.le_def, UInt32.le_def, BitVec.le_def] at h2
        exact h2
      omega
    · subst h
      decide
  simp only [Char.toLower]
  rw [if_neg hno]

theorem ne_space_of_allowed {c : Char} (h : allowedChar c = true) : c ≠ ' ' := by
  intro he
  subst he
  exact absurd h (by decide)

theorem clean_item_name_canonical (s : String) :
    (∀ c ∈ (clean_item_name s).data, allowedChar c = true) ∧
    (clean_item_name s).data.head? ≠ some '_' ∧
    (clean_item_name s).data.getLast? ≠ some '_' ∧
    List.Chain' notUU (clean_item_name s).data := by
  unfold clean_item_name
  refine ⟨?_, ?_, ?_, ?_⟩
  · intro c hc
    have h1 := stripUnderscores_subset _ c hc
    have h2 := mem_collapseUnderscores _ h1
    exact (List.mem_filter.mp h2).2
  · exact head?_stripUnderscores_ne _
  · exact getLast?_stripUnderscores_ne _
  · exact chain'_stripUnderscores (chain'_collapseUnderscores _)

theorem clean_item_name_fixed {l : List Char}
    (hall : ∀ c ∈ l, allowedChar c = true) (hh : l.head? ≠ some '_')
    (hl : l.getLast? ≠ some '_') (hch : List.Chain' notUU l) :
    clean_item_name ⟨l⟩ = ⟨l⟩ := by
  unfold clean_item_name
  have h1 : l.map Char.toLower = l :=
    map_eq_self_of_forall l (fun c hc => toLower_of_allowed (hall c hc))
  have h2 : l.map (fun c => if c = ' ' then '_' else c) = l :=
    map_eq_self_of_forall l (fun c hc => if_neg (ne_space_of_allowed (hall c hc)))
  have h3 : l.filter allowedChar = l := List.filter_eq_self.mpr hall
  show String.mk _ = String.mk l
  rw [show (String.mk l).data = l from rfl, h1, h2, h3,
    collapseUnderscores_eq_self l hch, stripUnderscores_eq_self l hh hl]

/-- **C8.** The item-name normalizer is idempotent on every input string, and
its output contains only `[a-z0-9_]` characters, with no leading, trailing,
or doubled underscores. -/
theorem c8_normalizer (s : String) :
    clean_item_name (clean_item_name s) = clean_item_name s ∧
    (∀ c ∈ (clean_item_name s).data, allowedChar c = true) ∧
    (clean_item_name s).data.head? ≠ some '_' ∧
    (clean_item_name s).data.getLast? ≠ some '_' ∧
    noDoubledUnderscore (clean_item_name s).data = true := by
  obtain ⟨hall, hh, hl, hch⟩ := clean_item_name_canonical s
  refine ⟨?_, hall, hh, hl, (noDoubledUnderscore_iff _).mpr hch⟩
  have : clean_item_name ⟨(clean_item_name s).data⟩ = ⟨(clean_item_name s).data⟩ :=
    clean_item_name_fixed hall hh hl hch
  exact this

/-- **C3** counterexample: in the run with one permanently rate-limited item,
the orchestrator publishes records whose status (e.g. `"retrying (attempt 1)"`)
is none of the five literals. -/
theorem c3_counterexample :
    ¬ (∀ r ∈ runTrace [] always429 [soloItem], r.status ∈ coreStatuses) := by decide

/-- **C4** counterexample: in the 3-item scenario (A: two buy orders, one
in-game and one offline; B: 429 then 200; C: 500), the final published
progress is 66, not 100, because `progress` counts only successful items
(2 of 3). -/
theorem c4_counterexample :
    (finalRecord [] c4Oracle c4Items).progress = 66 ∧ (66 : Nat) ≠ 100 := by decide

unseal List.merge List.mergeSort in
/-- **C4** amended: in the scenario, exactly the in-game buy order is kept as
A's single row, B succeeds at retry attempt 1, C is recorded in
`failed_items` with error `"HTTP 500"`, and the final record has
`processed_items == 3`, two successful items, and `progress == 66`
(not 100). -/
theorem c4_scenario :
    rowsFor "A" (finalState [] c4Oracle c4Items).market_data
      = [orderRow c4ItemA true c4OrderIngame] ∧
    "B" ∈ (finalState [] c4Oracle c4Items).succeeded ∧
    (itemFate c4Oracle "B").isFetched = true ∧
    (itemFate c4Oracle "B").attemptOf = some 1 ∧
    mkFailedItem "C" "HTTP 500" ∈ (finalState [] c4Oracle c4Items).failed_items ∧
    (finalRecord [] c4Oracle c4Items).successful_items = 2 ∧
    (finalRecord [] c4Oracle c4Items).processed_items = 3 ∧
    (finalRecord [] c4Oracle c4Items).progress = 66 := by decide

/-- **C1** counterexample: with a single item whose every fetch answers
HTTP 429, the retry bound is reached with the item still rate-limited, yet
`failed_items` receives no entry for it at all (the loop silently drops it);
the run still publishes a final `complete` record. -/
theorem c1_counterexample :
    exhausted always429 "x" ∧
    ¬ (∃ f ∈ (finalState [] always429 [soloItem]).failed_items, f.item = "x") ∧
    (finalRecord [] always429 [soloItem]).status = "complete" := by decide

/-- **C2** counterexample: the permanently rate-limited item ends the run in
*neither* of the two states — it is not a recorded success and has no
`failed_items` entry. -/
theorem c2_counterexample :
    (soloItem ∈ [soloItem] ∧ ([soloItem].map Item.name).Nodup) ∧
    ¬ (successState (finalState [] always429 [soloItem]) "x" ∨
       failureState (finalState [] always429 [soloItem]) "x") := by decide

theorem filter_flatMap_key {α β : Type} (key : α → String) (tag : β → String)
    (g : α → List β) (h : ∀ a, ∀ x ∈ g a, tag x = key a) (l : List α) (n : String) :
    (l.flatMap g).filter (fun x => tag x = n) = (l.filter (fun a => key a = n)).flatMap g := by
  induction l with
  | nil => rfl
  | cons a rest ih =>
    simp only [List.flatMap_cons, List.filter_append, ih, List.filter_cons]
    by_cases ha : key a = n
    · rw [List.filter_eq_self.mpr]
      · simp [ha]
      · intro x hx
        simp [h a x hx, ha]
    · rw [List.filter_eq_nil_iff.mpr]
      · simp [ha]
      · intro x hx
        simp [h a x hx, ha]

theorem filter_key_eq_of_nodup {α : Type} (key : α → String) {l : List α}
    (hnd : (l.map key).Nodup) {a : α} (ha : a ∈ l) :
    l.filter (fun x => key x = key a) = [a] := by
  induction l with
  | nil => cases ha
  | cons b rest ih =>
    rw [List.map_cons, List.nodup_cons] at hnd
    rcases List.mem_cons.mp ha with hb | hb
    · subst hb
      rw [List.filter_cons, if_pos (by simp)]
      rw [List.filter_eq_nil_iff.mpr]
      intro x hx
      simp only [decide_eq_true_eq]
      intro hke
      exact hnd.1 (hke ▸ List.mem_map_of_mem key hx)
    · have hne : key b ≠ key a := by
        intro he
        exact hnd.1 (he ▸ List.mem_map_of_mem key hb)
      rw [List.filter_cons, if_neg (by simp [hne])]
      exact ih hnd.2 hb

theorem mem_map_key_filter {α : Type} (key : α → String) (p : α → Bool) {l : List α}
    (hnd : (l.map key).Nodup) {a : α} (ha : a ∈ l) :
    (key a ∈ (l.filter p).map key) ↔ p a = true := by
  constructor
  · intro hm
    obtain ⟨x, hx, hke⟩ := List.mem_map.mp hm
    obtain ⟨hxl, hpx⟩ := List.mem_filter.mp hx
    have : x = a := List.inj_on_of_nodup_map hnd hxl ha hke
    exact this ▸ hpx
  · intro hp
    exact List.mem_map_of_mem key (List.mem_filter.mpr ⟨ha, hp⟩)

theorem find?_name_eq {l : List Item} (hnd : (l.map Item.name).Nodup)
    {i : Item} (hi : i ∈ l) :
    l.find? (fun j => j.name = i.name) = some i := by
  induction l with
  | nil => cases hi
  | cons b rest ih =>
    rw [List.map_cons, List.nodup_cons] at hnd
    rcases List.mem_cons.mp hi with hb | hb
    · subst hb
      exact List.find?_cons_of_pos _ (by simp)
    · have hne : b.name ≠ i.name := by
        intro he
        exact hnd.1 (he ▸ List.mem_map_of_mem Item.name hb)
      rw [List.find?_cons_of_neg _ (by simp [hne])]
      exact ih hnd.2 hb

theorem firstPassStep_proj (b : List (String × Nat)) (o : FetchOracle) (t : Nat)
    (ctx : PassCtx) (i : Item) :
    (firstPassStep b o t ctx i).st.market_data = ctx.st.market_data ++
       (match fetch_item_orders (o i.name 0) with
        | .success orders => orders.map (orderRow i (is_item_affordable i b))
        | _ => []) ∧
    (firstPassStep b o t ctx i).st.failed_items = ctx.st.failed_items ++
       (match fetch_item_orders (o i.name 0) with
        | .failed e => [mkFailedItem i.name e]
        | _ => []) ∧
    (firstPassStep b o t ctx i).retry_queue = ctx.retry_queue ++
       (if (fetch_item_orders (o i.name 0)).isRateLimited then [i.name] else []) ∧
    (firstPassStep b o t ctx i).st.succeeded = ctx.st.succeeded ++
       (if (fetch_item_orders (o i.name 0)).isSuccess then [i.name] else []) := by
  cases hf : fetch_item_orders (o i.name 0) <;>
    refine ⟨?_, ?_, ?_, ?_⟩ <;>
      (simp only [firstPassStep, hf, FetchResult.isRateLimited, FetchResult.isSuccess]
       split <;> simp)

theorem firstPass_proj (b : List (String × Nat)) (o : FetchOracle) (t : Nat) :
    ∀ (items : List Item) (ctx : PassCtx),
    (firstPass b o t items ctx).st.market_data
        = ctx.st.market_data ++ firstPassRows b o items ∧
    (firstPass b o t items ctx).st.failed_items
        = ctx.st.failed_items ++ firstPassFails o items ∧
    (firstPass b o t items ctx).retry_queue
        = ctx.retry_queue ++ firstPassRetry o items ∧
    (firstPass b o t items ctx).st.succeeded
        = ctx.st.succeeded ++ firstPassSucc o items := by
  intro items
  induction items with
  | nil =>
    intro ctx
    simp [firstPass, firstPassRows, firstPassFails, firstPassRetry, firstPassSucc]
  | cons i rest ih =>
    intro ctx
    obtain ⟨h1, h2, h3, h4⟩ := ih (firstPassStep b o t ctx i)
    obtain ⟨s1, s2, s3, s4⟩ := firstPassStep_proj b o t ctx i
    refine ⟨?_, ?_, ?_, ?_⟩
    · rw [show firstPass b o t (i :: rest) ctx
          = firstPass b o t rest (firstPassStep b o t ctx i) from rfl, h1, s1]
      simp only [firstPassRows, List.flatMap_cons, List.append_assoc]
    · rw [show firstPass b o t (i :: rest) ctx
          = firstPass b o t rest (firstPassStep b o t ctx i) from rfl, h2, s2]
      simp only [firstPassFails, List.flatMap_cons, List.append_assoc]
    · rw [show firstPass b o t (i :: rest) ctx
          = firstPass b o t rest (firstPassStep b o t ctx i) from rfl, h3, s3]
      simp only [firstPassRetry, List.filter_cons]
      by_cases hp : (fetch_item_orders (o i.name 0)).isRateLimited = true
      · simp [hp]
      · simp [hp]
    · rw [show firstPass b o t (i :: rest) ctx
          = firstPass b o t rest (firstPassStep b o t ctx i) from rfl, h4, s4]
      simp only [firstPassSucc, List.filter_cons]
      by_cases hp : (fetch_item_orders (o i.name 0)).isSuccess = true
      · simp [hp]
      · simp [hp]

theorem retryStep_proj (b : List (String × Nat)) (o : FetchOracle) (items : List Item)
    (t attempt : Nat) (ctx : RetryCtx) (n : String) :
    (retryStep b o items t attempt ctx n).st.market_data = ctx.st.market_data ++
       (match fetch_item_orders (o n attempt) with
        | .success orders =>
          match items.find? (fun i => i.name = n) with
          | some item => orders.map (orderRow item (is_item_affordable item b))
          | none => []
        | _ => []) ∧
    (retryStep b o items t attempt ctx n).st.failed_items = ctx.st.failed_items ++
       (match fetch_item_orders (o n attempt) with
        | .failed e => [mkFailedItem n e]
        | _ => []) ∧
    (retryStep b o items t attempt ctx n).next_queue = ctx.next_queue ++
       (if (fetch_item_orders (o n attempt)).isRateLimited then [n] else []) ∧
    (retryStep b o items t attempt ctx n).st.succeeded = ctx.st.succeeded ++
       (if (fetch_item_orders (o n attempt)).isSuccess then [n] else []) := by
  cases hf : fetch_item_orders (o n attempt) with
  | success orders =>
    cases hfind : items.find? (fun i => i.name = n) <;>
      refine ⟨?_, ?_, ?_, ?_⟩ <;>
        simp [retryStep, hf, hfind, FetchResult.isRateLimited, FetchResult.isSuccess]
  | rate_limited =>
    refine ⟨?_, ?_, ?_, ?_⟩ <;>
      simp [retryStep, hf, FetchResult.isRateLimited, FetchResult.isSuccess]
  | failed e =>
    refine ⟨?_, ?_, ?_, ?_⟩ <;>
      simp [retryStep, hf, FetchResult.isRateLimited, FetchResult.isSuccess]

theorem retryPass_proj (b : List (String × Nat)) (o : FetchOracle) (items : List Item)
    (t attempt : Nat) :
    ∀ (q : List String) (ctx : RetryCtx),
    (retryPass b o items t attempt q ctx).st.market_data
        = ctx.st.market_data ++ retryPassRows b o items attempt q ∧
    (retryPass b o items t attempt q ctx).st.failed_items
        = ctx.st.failed_items ++ retryPassFails o attempt q ∧
    (retryPass b o items t attempt q ctx).next_queue
        = ctx.next_queue ++ retryPassNext o attempt q ∧
    (retryPass b o items t attempt q ctx).st.succeeded
        = ctx.st.succeeded ++ retryPassSucc o attempt q := by
  intro q
  induction q with
  | nil =>
    intro ctx
    simp [retryPass, retryPassRows, retryPassFails, retryPassNext, retryPassSucc]
  | cons n rest ih =>
    intro ctx
    obtain ⟨h1, h2, h3, h4⟩ := ih (retryStep b o items t attempt ctx n)
    obtain ⟨s1, s2, s3, s4⟩ := retryStep_proj b o items t attempt ctx n
    refine ⟨?_, ?_, ?_, ?_⟩
    · rw [show retryPass b o items t attempt (n :: rest) ctx
          = retryPass b o items t attempt rest (retryStep b o items t attempt ctx n) from rfl,
        h1, s1]
      simp only [retryPassRows, List.flatMap_cons, List.append_assoc]
    · rw [show retryPass b o items t attempt (n :: rest) ctx
          = retryPass b o items t attempt rest (retryStep b o items t attempt ctx n) from rfl,
        h2, s2]
      simp only [retryPassFails, List.flatMap_cons, List.append_assoc]
    · rw [show retryPass b o items t attempt (n :: rest) ctx
          = retryPass b o items t attempt rest (retryStep b o items t attempt ctx n) from rfl,
        h3, s3]
      simp only [retryPassNext, List.filter_cons]
      by_cases hp : (fetch_item_orders (o n attempt)).isRateLimited = true
      · simp [hp]
      · simp [hp]
    · rw [show retryPass b o items t attempt (n :: rest) ctx
          = retryPass b o items t attempt rest (retryStep b o items t attempt ctx n) from rfl,
        h4, s4]
      simp only [retryPassSucc, List.filter_cons]
      by_cases hp : (fetch_item_orders (o n attempt)).isSuccess = true
      · simp [hp]
      · simp [hp]

theorem rowsFor_retryPassRows (b : List (String × Nat)) (o : FetchOracle)
    (items : List Item) (attempt : Nat) (q : List String) (n : String) :
    rowsFor n (retryPassRows b o items attempt q)
      = (q.filter (fun m => m = n)).flatMap (fun m =>
          match fetch_item_orders (o m attempt) with
          | .success orders =>
            match items.find? (fun i => i.name = m) with
            | some item => orders.map (orderRow item (is_item_affordable item b))
            | none => []
          | _ => []) := by
  unfold rowsFor retryPassRows
  refine filter_flatMap_key (fun m => m) MarketRow.item _ ?_ q n
  intro m x hx
  cases hf : fetch_item_orders (o m attempt) with
  | success orders =>
    rw [hf] at hx
    cases hfind : items.find? (fun i => i.name = m) with
    | none => rw [hfind] at hx; cases hx
    | some item =>
      rw [hfind] at hx
      obtain ⟨ord, _, hor⟩ := List.mem_map.mp hx
      have hname : item.name = m := by
        have := List.find?_some hfind
        simpa using this
      rw [← hor]
      exact hname
  | rate_limited => rw [hf] at hx; cases hx
  | failed e => rw [hf] at hx; cases hx

theorem failuresFor_retryPassFails (o : FetchOracle) (attempt : Nat)
    (q : List String) (n : String) :
    failuresFor n (retryPassFails o attempt q)
      = (q.filter (fun m => m = n)).flatMap (fun m =>
          match fetch_item_orders (o m attempt) with
          | .failed e => [mkFailedItem m e]
          | _ => []) := by
  unfold failuresFor retryPassFails
  refine filter_flatMap_key (fun m => m) FailedItem.item _ ?_ q n
  intro m x hx
  cases hf : fetch_item_orders (o m attempt) with
  | success orders => rw [hf] at hx; cases hx
  | rate_limited => rw [hf] at hx; cases hx
  | failed e =>
    rw [hf] at hx
    rcases List.mem_singleton.mp hx with h
    rw [h]
    rfl

theorem filter_self_eq_of_nodup {q : List String} (hnd : q.Nodup) {n : String}
    (hn : n ∈ q) : q.filter (fun m => m = n) = [n] := by
  have h := filter_key_eq_of_nodup (fun m => m) (by simpa using hnd) hn
  simpa using h

theorem filter_self_eq_nil_of_not_mem {q : List String} {n : String} (hn : n ∉ q) :
    q.filter (fun m => m = n) = [] := by
  rw [List.filter_eq_nil_iff]
  intro m hm
  simp only [decide_eq_true_eq]
  intro he
  exact hn (he ▸ hm)

theorem rowsFor_append (n : String) (l1 l2 : List MarketRow) :
    rowsFor n (l1 ++ l2) = rowsFor n l1 ++ rowsFor n l2 :=
  List.filter_append _ _

theorem failuresFor_append (n : String) (l1 l2 : List FailedItem) :
    failuresFor n (l1 ++ l2) = failuresFor n l1 ++ failuresFor n l2 :=
  List.filter_append _ _

theorem retryRound_proj (b : List (String × Nat)) (o : FetchOracle) (items : List Item)
    (t attempt : Nat) (st : RunState) (q : List String) (trace : List ProgressRecord) :
    (retryRound b o items t attempt st q trace).st.market_data
        = st.market_data ++ retryPassRows b o items attempt q ∧
    (retryRound b o items t attempt st q trace).st.failed_items
        = st.failed_items ++ retryPassFails o attempt q ∧
    (retryRound b o items t attempt st q trace).next_queue
        = retryPassNext o attempt q ∧
    (retryRound b o items t attempt st q trace).st.succeeded
        = st.succeeded ++ retryPassSucc o attempt q := by
  obtain ⟨p1, p2, p3, p4⟩ := retryPass_proj b o items t attempt q
    { st := st, next_queue := [],
      cache := update_full_data t st (retryAttemptStatus attempt),
      trace := trace ++ [update_full_data t st (retryAttemptStatus attempt)] }
  exact ⟨p1, p2, by simpa using p3, p4⟩

theorem rowsFor_retryPassRows_mem (b : List (String × Nat)) (o : FetchOracle)
    (items : List Item) (attempt : Nat) {q : List String} (hnd : q.Nodup)
    {n : String} (hn : n ∈ q) :
    rowsFor n (retryPassRows b o items attempt q)
      = (match fetch_item_orders (o n attempt) with
         | .success orders =>
           match items.find? (fun i => i.name = n) with
           | some item => orders.map (orderRow item (is_item_affordable item b))
           | none => []
         | _ => []) := by
  rw [rowsFor_retryPassRows, filter_self_eq_of_nodup hnd hn]
  simp

theorem rowsFor_retryPassRows_not_mem (b : List (String × Nat)) (o : FetchOracle)
    (items : List Item) (attempt : Nat) {q : List String} {n : String} (hn : n ∉ q) :
    rowsFor n (retryPassRows b o items attempt q) = [] := by
  rw [rowsFor_retryPassRows, filter_self_eq_nil_of_not_mem hn]
  rfl

theorem failuresFor_retryPassFails_mem (o : FetchOracle) (attempt : Nat)
    {q : List String} (hnd : q.Nodup) {n : String} (hn : n ∈ q) :
    failuresFor n (retryPassFails o attempt q)
      = (match fetch_item_orders (o n attempt) with
         | .failed e => [mkFailedItem n e]
         | _ => []) := by
  rw [failuresFor_retryPassFails, filter_self_eq_of_nodup hnd hn]
  simp

theorem failuresFor_retryPassFails_not_mem (o : FetchOracle) (attempt : Nat)
    {q : List String} {n : String} (hn : n ∉ q) :
    failuresFor n (retryPassFails o attempt q) = [] := by
  rw [failuresFor_retryPassFails, filter_self_eq_nil_of_not_mem hn]
  rfl

theorem retryLoop_not_mem (b : List (String × Nat)) (o : FetchOracle) (items : List Item)
    (t : Nat) :
    ∀ (fuel d : Nat) (st : RunState) (q : List String) (cache : ProgressRecord)
      (trace : List ProgressRecord) (n : String), n ∉ q →
      rowsFor n (retryLoop b o items t fuel d st q cache trace).1.market_data
          = rowsFor n st.market_data ∧
      failuresFor n (retryLoop b o items t fuel d st q cache trace).1.failed_items
          = failuresFor n st.failed_items ∧
      ((n ∈ (retryLoop b o items t fuel d st q cache trace).1.succeeded) ↔ n ∈ st.succeeded) ∧
      n ∉ (retryLoop b o items t fuel d st q cache trace).2.1 := by
  intro fuel
  induction fuel with
  | zero =>
    intro d st q cache trace n hn
    exact ⟨rfl, rfl, Iff.rfl, hn⟩
  | succ fuel ih =>
    intro d st q cache trace n hn
    by_cases hq : q.isEmpty = true
    · simp only [retryLoop, if_pos hq]
      simp [hn]
    · obtain ⟨r1, r2, r3, r4⟩ := retryRound_proj b o items t (d + 1) st q trace
      have hrows : rowsFor n (retryRound b o items t (d + 1) st q trace).st.market_data
          = rowsFor n st.market_data := by
        rw [r1, rowsFor_append, rowsFor_retryPassRows_not_mem b o items (d + 1) hn,
          List.append_nil]
      have hfails : failuresFor n (retryRound b o items t (d + 1) st q trace).st.failed_items
          = failuresFor n st.failed_items := by
        rw [r2, failuresFor_append, failuresFor_retryPassFails_not_mem o (d + 1) hn,
          List.append_nil]
      have hsucc : (n ∈ (retryRound b o items t (d + 1) st q trace).st.succeeded)
          ↔ n ∈ st.succeeded := by
        rw [r4]
        simp only [List.mem_append]
        constructor
        · rintro (h | h)
          · exact h
          · exact absurd ((List.mem_filter.mp h).1) hn
        · exact Or.inl
      have hnext : n ∉ (retryRound b o items t (d + 1) st q trace).next_queue := by
        rw [r3]
        intro hmem
        exact hn (List.mem_filter.mp hmem).1
      simp only [retryLoop, if_neg hq]
      by_cases hq1 : (retryRound b o items t (d + 1) st q trace).next_queue.isEmpty = true
      · simp only [if_pos hq1]
        exact ⟨hrows, hfails, hsucc, hnext⟩
      · simp only [if_neg hq1]
        obtain ⟨i1, i2, i3, i4⟩ := ih (d + 1)
          (retryRound b o items t (d + 1) st q trace).st
          (retryRound b o items t (d + 1) st q trace).next_queue
          (update_full_data t (retryRound b o items t (d + 1) st q trace).st
            (retryRemainingStatus (retryRound b o items t (d + 1) st q trace).next_queue.length))
          ((retryRound b o items t (d + 1) st q trace).trace ++
            [update_full_data t (retryRound b o items t (d + 1) st q trace).st
              (retryRemainingStatus (retryRound b o items t (d + 1) st q trace).next_queue.length)])
          n hnext
        exact ⟨i1.trans hrows, i2.trans hfails, i3.trans hsucc, i4⟩

theorem retryLoop_proj (b : List (String × Nat)) (o : FetchOracle) (items : List Item)
    (t : Nat) :
    ∀ (fuel d : Nat) (st : RunState) (q : List String) (cache : ProgressRecord)
      (trace : List ProgressRecord) (n : String), q.Nodup → n ∈ q →
      rowsFor n (retryLoop b o items t fuel d st q cache trace).1.market_data
          = rowsFor n st.market_data ++ fateRows b items n (retryFate o n fuel d) ∧
      failuresFor n (retryLoop b o items t fuel d st q cache trace).1.failed_items
          = failuresFor n st.failed_items ++ fateFailures n (retryFate o n fuel d) ∧
      ((n ∈ (retryLoop b o items t fuel d st q cache trace).1.succeeded)
          ↔ (n ∈ st.succeeded ∨ (retryFate o n fuel d).isFetched = true)) ∧
      ((n ∈ (retryLoop b o items t fuel d st q cache trace).2.1)
          ↔ retryFate o n fuel d = .dropped) := by
  intro fuel
  induction fuel with
  | zero =>
    intro d st q cache trace n hnd hn
    simp [retryLoop, retryFate, fateRows, fateFailures, ItemFate.isFetched, hn]
  | succ fuel ih =>
    intro d st q cache trace n hnd hn
    have hq : ¬ q.isEmpty = true := by
      rw [List.isEmpty_iff]
      intro h
      subst h
      cases hn
    obtain ⟨r1, r2, r3, r4⟩ := retryRound_proj b o items t (d + 1) st q trace
    have hrowsR : rowsFor n (retryRound b o items t (d + 1) st q trace).st.market_data
        = rowsFor n st.market_data ++
          (match fetch_item_orders (o n (d + 1)) with
           | .success orders =>
             match items.find? (fun i => i.name = n) with
             | some item => orders.map (orderRow item (is_item_affordable item b))
             | none => []
           | _ => []) := by
      rw [r1, rowsFor_append, rowsFor_retryPassRows_mem b o items (d + 1) hnd hn]
    have hfailsR : failuresFor n (retryRound b o items t (d + 1) st q trace).st.failed_items
        = failuresFor n st.failed_items ++
          (match fetch_item_orders (o n (d + 1)) with
           | .failed e => [mkFailedItem n e]
           | _ => []) := by
      rw [r2, failuresFor_append, failuresFor_retryPassFails_mem o (d + 1) hnd hn]
    have hsuccR : (n ∈ (retryRound b o items t (d + 1) st q trace).st.succeeded)
        ↔ (n ∈ st.succeeded ∨ (fetch_item_orders (o n (d + 1))).isSuccess = true) := by
      rw [r4]
      simp only [List.mem_append, retryPassSucc, List.mem_filter]
      constructor
      · rintro (h | ⟨_, h⟩)
        · exact Or.inl h
        · exact Or.inr h
      · rintro (h | h)
        · exact Or.inl h
        · exact Or.inr ⟨hn, h⟩
    have hnextR : (n ∈ (retryRound b o items t (d + 1) st q trace).next_queue)
        ↔ (fetch_item_orders (o n (d + 1))).isRateLimited = true := by
      rw [r3]
      simp only [retryPassNext, List.mem_filter]
      exact ⟨fun h => h.2, fun h => ⟨hn, h⟩⟩
    have hndR : (retryRound b o items t (d + 1) st q trace).next_queue.Nodup := by
      rw [r3]
      exact hnd.filter _
    simp only [retryLoop, if_neg hq]
    cases hf : fetch_item_orders (o n (d + 1)) with
    | success orders =>
      have hnot : n ∉ (retryRound b o items t (d + 1) st q trace).next_queue := by
        rw [hnextR, hf]
        simp [FetchResult.isRateLimited]
      have hfate : retryFate o n (fuel + 1) d = .fetched orders (d + 1) := by
        simp [retryFate, hf]
      rw [hf] at hrowsR hfailsR
      rw [hf] at hsuccR
      by_cases hq1 : (retryRound b o items t (d + 1) st q trace).next_queue.isEmpty = true
      · simp only [if_pos hq1]
        refine ⟨?_, ?_, ?_, ?_⟩
        · rw [hfate, hrowsR]
          rfl
        · rw [hfate, hfailsR]
          rfl
        · rw [hfate, hsuccR]
          simp [FetchResult.isSuccess, ItemFate.isFetched]
        · rw [hfate]
          constructor
          · intro hmem
            exact absurd hmem hnot
          · intro hcon
            cases hcon
      · simp only [if_neg hq1]
        obtain ⟨i1, i2, i3, i4⟩ := retryLoop_not_mem b o items t fuel (d + 1)
          (retryRound b o items t (d + 1) st q trace).st
          (retryRound b o items t (d + 1) st q trace).next_queue
          (update_full_data t (retryRound b o items t (d + 1) st q trace).st
            (retryRemainingStatus (retryRound b o items t (d + 1) st q trace).next_queue.length))
          ((retryRound b o items t (d + 1) st q trace).trace ++
            [update_full_data t (retryRound b o items t (d + 1) st q trace).st
              (retryRemainingStatus
                (retryRound b o items t (d + 1) st q trace).next_queue.length)])
          n hnot
        refine ⟨?_, ?_, ?_, ?_⟩
        · rw [i1, hfate, hrowsR]
          rfl
        · rw [i2, hfate, hfailsR]
          rfl
        · rw [i3, hfate, hsuccR]
          simp [FetchResult.isSuccess, ItemFate.isFetched]
        · rw [hfate]
          constructor
          · intro hmem
            exact absurd hmem i4
          · intro hcon
            cases hcon
    | failed e =>
      have hnot : n ∉ (retryRound b o items t (d + 1) st q trace).next_queue := by
        rw [hnextR, hf]
        simp [FetchResult.isRateLimited]
      have hfate : retryFate o n (fuel + 1) d = .failedAt e (d + 1) := by
        simp [retryFate, hf]
      rw [hf] at hrowsR hfailsR
      rw [hf] at hsuccR
      by_cases hq1 : (retryRound b o items t (d + 1) st q trace).next_queue.isEmpty = true
      · simp only [if_pos hq1]
        refine ⟨?_, ?_, ?_, ?_⟩
        · rw [hfate, hrowsR]
          rfl
        · rw [hfate, hfailsR]
          rfl
        · rw [hfate, hsuccR]
          simp [FetchResult.isSuccess, ItemFate.isFetched]
        · rw [hfate]
          constructor
          · intro hmem
            exact absurd hmem hnot
          · intro hcon
            cases hcon
      · simp only [if_neg hq1]
        obtain ⟨i1, i2, i3, i4⟩ := retryLoop_not_mem b o items t fuel (d + 1)
          (retryRound b o items t (d + 1) st q trace).st
          (retryRound b o items t (d + 1) st q trace).next_queue
          (update_full_data t (retryRound b o items t (d + 1) st q trace).st
            (retryRemainingStatus (retryRound b o items t (d + 1) st q trace).next_queue.length))
          ((retryRound b o items t (d + 1) st q trace).trace ++
            [update_full_data t (retryRound b o items t (d + 1) st q trace).st
              (retryRemainingStatus
                (retryRound b o items t (d + 1) st q trace).next_queue.length)])
          n hnot
        refine ⟨?_, ?_, ?_, ?_⟩
        · rw [i1, hfate, hrowsR]
          rfl
        · rw [i2, hfate, hfailsR]
          rfl
        · rw [i3, hfate, hsuccR]
          simp [FetchResult.isSuccess, ItemFate.isFetched]
        · rw [hfate]
          constructor
          · intro hmem
            exact absurd hmem i4
          · intro hcon
            cases hcon
    | rate_limited =>
      have hmemn : n ∈ (retryRound b o items t (d + 1) st q trace).next_queue := by
        rw [hnextR, hf]
        rfl
      have hq1 : ¬ (retryRound b o items t (d + 1) st q trace).next_queue.isEmpty = true := by
        rw [List.isEmpty_iff]
        intro h
        rw [h] at hmemn
        cases hmemn
      have hfate : retryFate o n (fuel + 1) d = retryFate o n fuel (d + 1) := by
        simp [retryFate, hf]
      rw [hf] at hrowsR hfailsR
      rw [hf] at hsuccR
      simp only [if_neg hq1]
      obtain ⟨i1, i2, i3, i4⟩ := ih (d + 1)
        (retryRound b o items t (d + 1) st q trace).st
        (retryRound b o items t (d + 1) st q trace).next_queue
        (update_full_data t (retryRound b o items t (d + 1) st q trace).st
          (retryRemainingStatus (retryRound b o items t (d + 1) st q trace).next_queue.length))
        ((retryRound b o items t (d + 1) st q trace).trace ++
          [update_full_data t (retryRound b o items t (d + 1) st q trace).st
            (retryRemainingStatus
              (retryRound b o items t (d + 1) st q trace).next_queue.length)])
        n hndR hmemn
      refine ⟨?_, ?_, ?_, ?_⟩
      · rw [i1, hfate, hrowsR]
        simp
      · rw [i2, hfate, hfailsR]
        simp
      · rw [i3, hfate, hsuccR]
        simp [FetchResult.isSuccess]
      · rw [i4, hfate]

theorem rowsFor_firstPassRows (b : List (String × Nat)) (o : FetchOracle)
    (items : List Item) (n : String) :
    rowsFor n (firstPassRows b o items)
      = (items.filter (fun i => i.name = n)).flatMap (fun i =>
          match fetch_item_orders (o i.name 0) with
          | .success orders => orders.map (orderRow i (is_item_affordable i b))
          | _ => []) := by
  unfold rowsFor firstPassRows
  refine filter_flatMap_key Item.name MarketRow.item _ ?_ items n
  intro i x hx
  cases hf : fetch_item_orders (o i.name 0) with
  | success orders =>
    rw [hf] at hx
    obtain ⟨ord, _, hor⟩ := List.mem_map.mp hx
    rw [← hor]
    rfl
  | rate_limited => rw [hf] at hx; cases hx
  | failed e => rw [hf] at hx; cases hx

theorem failuresFor_firstPassFails (o : FetchOracle) (items : List Item) (n : String) :
    failuresFor n (firstPassFails o items)
      = (items.filter (fun i => i.name = n)).flatMap (fun i =>
          match fetch_item_orders (o i.name 0) with
          | .failed e => [mkFailedItem i.name e]
          | _ => []) := by
  unfold failuresFor firstPassFails
  refine filter_flatMap_key Item.name FailedItem.item _ ?_ items n
  intro i x hx
  cases hf : fetch_item_orders (o i.name 0) with
  | success orders => rw [hf] at hx; cases hx
  | rate_limited => rw [hf] at hx; cases hx
  | failed e =>
    rw [hf] at hx
    rw [List.mem_singleton.mp hx]
    rfl

theorem rowsFor_firstPassRows_item (b : List (String × Nat)) (o : FetchOracle)
    {items : List Item} (hnd : (items.map Item.name).Nodup) {i : Item} (hi : i ∈ items) :
    rowsFor i.name (firstPassRows b o items)
      = (match fetch_item_orders (o i.name 0) with
         | .success orders => orders.map (orderRow i (is_item_affordable i b))
         | _ => []) := by
  rw [rowsFor_firstPassRows, filter_key_eq_of_nodup Item.name hnd hi]
  simp

theorem failuresFor_firstPassFails_item (o : FetchOracle)
    {items : List Item} (hnd : (items.map Item.name).Nodup) {i : Item} (hi : i ∈ items) :
    failuresFor i.name (firstPassFails o items)
      = (match fetch_item_orders (o i.name 0) with
         | .failed e => [mkFailedItem i.name e]
         | _ => []) := by
  rw [failuresFor_firstPassFails, filter_key_eq_of_nodup Item.name hnd hi]
  simp

theorem mem_firstPassRetry_iff (o : FetchOracle) {items : List Item}
    (hnd : (items.map Item.name).Nodup) {i : Item} (hi : i ∈ items) :
    (i.name ∈ firstPassRetry o items)
      ↔ (fetch_item_orders (o i.name 0)).isRateLimited = true :=
  mem_map_key_filter Item.name _ hnd hi

theorem mem_firstPassSucc_iff (o : FetchOracle) {items : List Item}
    (hnd : (items.map Item.name).Nodup) {i : Item} (hi : i ∈ items) :
    (i.name ∈ firstPassSucc o items)
      ↔ (fetch_item_orders (o i.name 0)).isSuccess = true :=
  mem_map_key_filter Item.name _ hnd hi

theorem firstPassRetry_nodup (o : FetchOracle) {items : List Item}
    (hnd : (items.map Item.name).Nodup) : (firstPassRetry o items).Nodup :=
  List.Sublist.nodup (List.Sublist.map Item.name (List.filter_sublist items)) hnd

theorem retryFate_dropped_iff (o : FetchOracle) (n : String) :
    ∀ (fuel d : Nat), retryFate o n fuel d = .dropped ↔
      (∀ j, 1 ≤ j → j ≤ fuel → fetch_item_orders (o n (d + j)) = .rate_limited) := by
  intro fuel
  induction fuel with
  | zero =>
    intro d
    constructor
    · intro _ j h1 h2
      omega
    · intro _
      rfl
  | succ fuel ih =>
    intro d
    cases hf : fetch_item_orders (o n (d + 1)) with
    | success orders =>
      simp only [retryFate, hf]
      constructor
      · intro hcon
        cases hcon
      · intro h
        have h1 := h 1 (by omega) (by omega)
        rw [hf] at h1
        cases h1
    | failed e =>
      simp only [retryFate, hf]
      constructor
      · intro hcon
        cases hcon
      · intro h
        have h1 := h 1 (by omega) (by omega)
        rw [hf] at h1
        cases h1
    | rate_limited =>
      rw [show retryFate o n (fuel + 1) d = retryFate o n fuel (d + 1) by
        simp [retryFate, hf], ih (d + 1)]
      constructor
      · intro h j h1 h2
        rcases Nat.lt_or_ge j 2 with hj | hj
        · have : j = 1 := by omega
          subst this
          exact hf
        · have hstep := h (j - 1) (by omega) (by omega)
          have heq : d + 1 + (j - 1) = d + j := by omega
          rw [heq] at hstep
          exact hstep
      · intro h j h1 h2
        have hstep := h (j + 1) (by omega) (by omega)
        have heq : d + (j + 1) = d + 1 + j := by omega
        rw [heq] at hstep
        exact hstep

theorem itemFate_dropped_iff (o : FetchOracle) (n : String) :
    itemFate o n = .dropped ↔ exhausted o n := by
  unfold itemFate exhausted
  cases hf : fetch_item_orders (o n 0) with
  | success orders =>
    constructor
    · intro hcon
      cases hcon
    · intro h
      have h0 := h 0 (by omega)
      rw [hf] at h0
      cases h0
  | failed e =>
    constructor
    · intro hcon
      cases hcon
    · intro h
      have h0 := h 0 (by omega)
      rw [hf] at h0
      cases h0
  | rate_limited =>
    rw [retryFate_dropped_iff o n max_retry_attempts 0]
    constructor
    · intro h a ha
      cases a with
      | zero => exact hf
      | succ j =>
        have := h (j + 1) (by omega) ha
        simpa using this
    · intro h j h1 h2
      have := h j (by omega)
      simpa using this

theorem finalState_eq (b : List (String × Nat)) (o : FetchOracle) (items : List Item) :
    finalState b o items =
      (retryLoop b o items items.length max_retry_attempts 0
        (firstPass b o items.length items (runCtx0 items)).st
        (firstPass b o items.length items (runCtx0 items)).retry_queue
        (update_full_data items.length (firstPass b o items.length items (runCtx0 items)).st
          (if (firstPass b o items.length items (runCtx0 items)).retry_queue.isEmpty
            then "completing" else "retrying"))
        ((firstPass b o items.length items (runCtx0 items)).trace ++
          [update_full_data items.length (firstPass b o items.length items (runCtx0 items)).st
            (if (firstPass b o items.length items (runCtx0 items)).retry_queue.isEmpty
              then "completing" else "retrying")])).1 := rfl

theorem finalQueue_eq (b : List (String × Nat)) (o : FetchOracle) (items : List Item) :
    finalQueue b o items =
      (retryLoop b o items items.length max_retry_attempts 0
        (firstPass b o items.length items (runCtx0 items)).st
        (firstPass b o items.length items (runCtx0 items)).retry_queue
        (update_full_data items.length (firstPass b o items.length items (runCtx0 items)).st
          (if (firstPass b o items.length items (runCtx0 items)).retry_queue.isEmpty
            then "completing" else "retrying"))
        ((firstPass b o items.length items (runCtx0 items)).trace ++
          [update_full_data items.length (firstPass b o items.length items (runCtx0 items)).st
            (if (firstPass b o items.length items (runCtx0 items)).retry_queue.isEmpty
              then "completing" else "retrying")])).2.1 := rfl

theorem finalRecord_status (b : List (String × Nat)) (o : FetchOracle) (items : List Item) :
    (finalRecord b o items).status = "complete" := rfl

theorem finalState_item_proj (b : List (String × Nat)) (o : FetchOracle)
    {items : List Item} {i : Item} (hi : i ∈ items)
    (hnd : (items.map Item.name).Nodup) :
    rowsFor i.name (finalState b o items).market_data
        = fateRows b items i.name (itemFate o i.name) ∧
    failuresFor i.name (finalState b o items).failed_items
        = fateFailures i.name (itemFate o i.name) ∧
    ((i.name ∈ (finalState b o items).succeeded) ↔ (itemFate o i.name).isFetched = true) ∧
    ((i.name ∈ finalQueue b o items) ↔ itemFate o i.name = .dropped) := by
  obtain ⟨f1, f2, f3, f4⟩ := firstPass_proj b o items.length items (runCtx0 items)
  rw [show (runCtx0 items).st.market_data = [] from rfl, List.nil_append] at f1
  rw [show (runCtx0 items).st.failed_items = [] from rfl, List.nil_append] at f2
  rw [show (runCtx0 items).retry_queue = [] from rfl, List.nil_append] at f3
  rw [show (runCtx0 items).st.succeeded = [] from rfl, List.nil_append] at f4
  rw [finalState_eq, finalQueue_eq]
  cases hf : fetch_item_orders (o i.name 0) with
  | success orders =>
    have hnotq : i.name ∉ (firstPass b o items.length items (runCtx0 items)).retry_queue := by
      rw [f3, mem_firstPassRetry_iff o hnd hi, hf]
      simp [FetchResult.isRateLimited]
    obtain ⟨i1, i2, i3, i4⟩ := retryLoop_not_mem b o items items.length max_retry_attempts 0
      (firstPass b o items.length items (runCtx0 items)).st
      (firstPass b o items.length items (runCtx0 items)).retry_queue
      (update_full_data items.length (firstPass b o items.length items (runCtx0 items)).st
        (if (firstPass b o items.length items (runCtx0 items)).retry_queue.isEmpty
          then "completing" else "retrying"))
      ((firstPass b o items.length items (runCtx0 items)).trace ++
        [update_full_data items.length (firstPass b o items.length items (runCtx0 items)).st
          (if (firstPass b o items.length items (runCtx0 items)).retry_queue.isEmpty
            then "completing" else "retrying")])
      i.name hnotq
    have hfate : itemFate o i.name = .fetched orders 0 := by
      simp [itemFate, hf]
    refine ⟨?_, ?_, ?_, ?_⟩
    · rw [i1, f1, hfate, rowsFor_firstPassRows_item b o hnd hi, hf]
      simp [fateRows, find?_name_eq hnd hi]
    · rw [i2, f2, hfate, failuresFor_firstPassFails_item o hnd hi, hf]
      simp [fateFailures]
    · rw [i3, f4, hfate, mem_firstPassSucc_iff o hnd hi, hf]
      simp [FetchResult.isSuccess, ItemFate.isFetched]
    · rw [hfate]
      constructor
      · intro hmem
        exact absurd hmem i4
      · intro hcon
        cases hcon
  | failed e =>
    have hnotq : i.name ∉ (firstPass b o items.length items (runCtx0 items)).retry_queue := by
      rw [f3, mem_firstPassRetry_iff o hnd hi, hf]
      simp [FetchResult.isRateLimited]
    obtain ⟨i1, i2, i3, i4⟩ := retryLoop_not_mem b o items items.length max_retry_attempts 0
      (firstPass b o items.length items (runCtx0 items)).st
      (firstPass b o items.length items (runCtx0 items)).retry_queue
      (update_full_data items.length (firstPass b o items.length items (runCtx0 items)).st
        (if (firstPass b o items.length items (runCtx0 items)).retry_queue.isEmpty
          then "completing" else "retrying"))
      ((firstPass b o items.length items (runCtx0 items)).trace ++
        [update_full_data items.length (firstPass b o items.length items (runCtx0 items)).st
          (if (firstPass b o items.length items (runCtx0 items)).retry_queue.isEmpty
            then "completing" else "retrying")])
      i.name hnotq
    have hfate : itemFate o i.name = .failedAt e 0 := by
      simp [itemFate, hf]
    refine ⟨?_, ?_, ?_, ?_⟩
    · rw [i1, f1, hfate, rowsFor_firstPassRows_item b o hnd hi, hf]
      simp [fateRows]
    · rw [i2, f2, hfate, failuresFor_firstPassFails_item o hnd hi, hf]
      simp [fateFailures]
    · rw [i3, f4, hfate, mem_firstPassSucc_iff o hnd hi, hf]
      simp [FetchResult.isSuccess, ItemFate.isFetched]
    · rw [hfate]
      constructor
      · intro hmem
        exact absurd hmem i4
      · intro hcon
        cases hcon
  | rate_limited =>
    have hmemq : i.name ∈ (firstPass b o items.length items (runCtx0 items)).retry_queue := by
      rw [f3, mem_firstPassRetry_iff o hnd hi, hf]
      rfl
    have hndq : (firstPass b o items.length items (runCtx0 items)).retry_queue.Nodup := by
      rw [f3]
      exact firstPassRetry_nodup o hnd
    obtain ⟨i1, i2, i3, i4⟩ := retryLoop_proj b o items items.length max_retry_attempts 0
      (firstPass b o items.length items (runCtx0 items)).st
      (firstPass b o items.length items (runCtx0 items)).retry_queue
      (update_full_data items.length (firstPass b o items.length items (runCtx0 items)).st
        (if (firstPass b o items.length items (runCtx0 items)).retry_queue.isEmpty
          then "completing" else "retrying"))
      ((firstPass b o items.length items (runCtx0 items)).trace ++
        [update_full_data items.length (firstPass b o items.length items (runCtx0 items)).st
          (if (firstPass b o items.length items (runCtx0 items)).retry_queue.isEmpty
            then "completing" else "retrying")])
      i.name hndq hmemq
    have hfate : itemFate o i.name = retryFate o i.name max_retry_attempts 0 := by
      simp [itemFate, hf]
    refine ⟨?_, ?_, ?_, ?_⟩
    · rw [i1, f1, hfate, rowsFor_firstPassRows_item b o hnd hi, hf]
      simp
    · rw [i2, f2, hfate, failuresFor_firstPassFails_item o hnd hi, hf]
      simp
    · rw [i3, f4, hfate, mem_firstPassSucc_iff o hnd hi, hf]
      simp [FetchResult.isSuccess]
    · rw [i4, hfate]

/-- **C1** amended: in every run whose retry bound is reached while an item
is still rate-limited (`exhausted`), that item is silently dropped — it
appears in neither `market_data` nor `failed_items` (no retry-exhaustion
entry is written); it stays only in the internal leftover queue, and the run
still proceeds to a final `complete` publish. -/
theorem c1_retry_exhaustion (b : List (String × Nat)) (o : FetchOracle)
    (items : List Item) (i : Item) (hi : i ∈ items)
    (hnd : (items.map Item.name).Nodup) (hex : exhausted o i.name) :
    rowsFor i.name (finalState b o items).market_data = [] ∧
    failuresFor i.name (finalState b o items).failed_items = [] ∧
    (i.name ∈ finalQueue b o items) ∧
    (finalRecord b o items).status = "complete" := by
  obtain ⟨m1, m2, _, m4⟩ := finalState_item_proj b o hi hnd
  have hdrop : itemFate o i.name = .dropped := (itemFate_dropped_iff o i.name).mpr hex
  refine ⟨?_, ?_, m4.mpr hdrop, finalRecord_status b o items⟩
  · rw [m1, hdrop]
    rfl
  · rw [m2, hdrop]
    rfl

/-- Witness for `c1_retry_exhaustion` at the always-429 single-item run. -/
theorem c1_retry_exhaustion_witness :
    rowsFor "x" (finalState [] always429 [soloItem]).market_data = [] ∧
    failuresFor "x" (finalState [] always429 [soloItem]).failed_items = [] ∧
    ("x" ∈ finalQueue [] always429 [soloItem]) ∧
    (finalRecord [] always429 [soloItem]).status = "complete" :=
  c1_retry_exhaustion [] always429 [soloItem] soloItem (by decide) (by decide) (by decide)

/-- **C2** amended: with distinct item names, no item ever ends in both
states (a success with rows and a `failed_items` entry), and an item ends in
exactly one of the two states *iff* it is not retry-exhausted; a
permanently rate-limited item ends in neither. -/
theorem c2_item_state_partition (b : List (String × Nat)) (o : FetchOracle)
    (items : List Item) (i : Item) (hi : i ∈ items)
    (hnd : (items.map Item.name).Nodup) :
    (¬ exhausted o i.name ↔
      (successState (finalState b o items) i.name ∨
       failureState (finalState b o items) i.name)) ∧
    ¬ (successState (finalState b o items) i.name ∧
       failureState (finalState b o items) i.name) := by
  obtain ⟨m1, m2, m3, _⟩ := finalState_item_proj b o hi hnd
  rw [← itemFate_dropped_iff o i.name]
  unfold successState failureState
  cases hfa : itemFate o i.name with
  | fetched orders a =>
    rw [hfa] at m1 m2 m3
    have hsucc : i.name ∈ (finalState b o items).succeeded := m3.mpr rfl
    have hfail : failuresFor i.name (finalState b o items).failed_items = [] := by
      rw [m2]
      rfl
    constructor
    · constructor
      · intro _
        exact Or.inl ⟨hsucc, hfail⟩
      · intro _ hcon
        cases hcon
    · rintro ⟨_, hlen, _⟩
      rw [hfail] at hlen
      simp at hlen
  | failedAt e a =>
    rw [hfa] at m1 m2 m3
    have hrows : rowsFor i.name (finalState b o items).market_data = [] := by
      rw [m1]
      rfl
    have hfails : failuresFor i.name (finalState b o items).failed_items
        = [mkFailedItem i.name e] := by
      rw [m2]
      rfl
    constructor
    · constructor
      · intro _
        refine Or.inr ⟨?_, hrows⟩
        rw [hfails]
        rfl
      · intro _ hcon
        cases hcon
    · rintro ⟨⟨_, hemp⟩, _⟩
      rw [hfails] at hemp
      simp at hemp
  | dropped =>
    rw [hfa] at m1 m2 m3
    have hnmem : i.name ∉ (finalState b o items).succeeded := by
      intro hm
      have hit := m3.mp hm
      simp [ItemFate.isFetched] at hit
    have hfail : failuresFor i.name (finalState b o items).failed_items = [] := by
      rw [m2]
      rfl
    constructor
    · constructor
      · intro hne
        exact absurd rfl hne
      · rintro (⟨hm, _⟩ | ⟨hlen, _⟩)
        · exact absurd hm hnmem
        · rw [hfail] at hlen
          simp at hlen
    · rintro ⟨⟨hm, _⟩, _⟩
      exact absurd hm hnmem

/-- Witness for `c2_item_state_partition` at item A of the C4 scenario. -/
theorem c2_item_state_partition_witness :
    (¬ exhausted c4Oracle "A" ↔
      (successState (finalState [] c4Oracle c4Items) "A" ∨
       failureState (finalState [] c4Oracle c4Items) "A")) ∧
    ¬ (successState (finalState [] c4Oracle c4Items) "A" ∧
       failureState (finalState [] c4Oracle c4Items) "A") :=
  c2_item_state_partition [] c4Oracle c4Items c4ItemA (by decide) (by decide)

theorem firstPassStep_trace_mem (b : List (String × Nat)) (o : FetchOracle) (t : Nat)
    (ctx : PassCtx) (i : Item) (r : ProgressRecord)
    (hr : r ∈ (firstPassStep b o t ctx i).trace) :
    r ∈ ctx.trace ∨ r.status = "fetching" := by
  unfold firstPassStep at hr
  cases hf : fetch_item_orders (o i.name 0) with
  | success orders =>
    simp only [hf] at hr
    split at hr
    · simp only [List.mem_append, List.mem_singleton] at hr
      rcases hr with (hr | hr) | hr
      · exact Or.inl hr
      · subst hr
        exact Or.inr rfl
      · subst hr
        exact Or.inr rfl
    · simp only [List.mem_append, List.mem_singleton] at hr
      rcases hr with hr | hr
      · exact Or.inl hr
      · subst hr
        exact Or.inr rfl
  | rate_limited =>
    simp only [hf] at hr
    split at hr
    · simp only [List.mem_append, List.mem_singleton] at hr
      rcases hr with hr | hr
      · exact Or.inl hr
      · subst hr
        exact Or.inr rfl
    · exact Or.inl hr
  | failed e =>
    simp only [hf] at hr
    split at hr
    · simp only [List.mem_append, List.mem_singleton] at hr
      rcases hr with hr | hr
      · exact Or.inl hr
      · subst hr
        exact Or.inr rfl
    · exact Or.inl hr

theorem firstPass_trace_mem (b : List (String × Nat)) (o : FetchOracle) (t : Nat) :
    ∀ (items : List Item) (ctx : PassCtx) (r : ProgressRecord),
      r ∈ (firstPass b o t items ctx).trace → r ∈ ctx.trace ∨ r.status = "fetching" := by
  intro items
  induction items with
  | nil => intro ctx r hr; exact Or.inl hr
  | cons i rest ih =>
    intro ctx r hr
    rcases ih (firstPassStep b o t ctx i) r hr with h | h
    · exact firstPassStep_trace_mem b o t ctx i r h
    · exact Or.inr h

theorem retryStep_trace_mem (b : List (String × Nat)) (o : FetchOracle) (items : List Item)
    (t attempt : Nat) (ctx : RetryCtx) (n : String) (r : ProgressRecord)
    (hr : r ∈ (retryStep b o items t attempt ctx n).trace) :
    r ∈ ctx.trace ∨ r.status = "retrying" := by
  unfold retryStep at hr
  cases hf : fetch_item_orders (o n attempt) <;> simp only [hf] at hr
  case success orders =>
    simp only [List.mem_append, List.mem_singleton] at hr
    rcases hr with hr | hr
    · exact Or.inl hr
    · subst hr
      exact Or.inr rfl
  case rate_limited => exact Or.inl hr
  case failed e => exact Or.inl hr

theorem retryPass_trace_mem (b : List (String × Nat)) (o : FetchOracle) (items : List Item)
    (t attempt : Nat) :
    ∀ (q : List String) (ctx : RetryCtx) (r : ProgressRecord),
      r ∈ (retryPass b o items t attempt q ctx).trace → r ∈ ctx.trace ∨ r.status = "retrying" := by
  intro q
  induction q with
  | nil => intro ctx r hr; exact Or.inl hr
  | cons n rest ih =>
    intro ctx r hr
    rcases ih (retryStep b o items t attempt ctx n) r hr with h | h
    · exact retryStep_trace_mem b o items t attempt ctx n r h
    · exact Or.inr h

theorem retryRound_trace_mem (b : List (String × Nat)) (o : FetchOracle) (items : List Item)
    (t attempt : Nat) (st : RunState) (q : List String) (trace : List ProgressRecord)
    (r : ProgressRecord) (hr : r ∈ (retryRound b o items t attempt st q trace).trace) :
    r ∈ trace ∨ r.status = retryAttemptStatus attempt ∨ r.status = "retrying" := by
  rcases retryPass_trace_mem b o items t attempt q _ r hr with h | h
  · simp only [List.mem_append, List.mem_singleton] at h
    rcases h with h | h
    · exact Or.inl h
    · subst h
      exact Or.inr (Or.inl rfl)
  · exact Or.inr (Or.inr h)

theorem retryLoop_trace_mem (b : List (String × Nat)) (o : FetchOracle) (items : List Item)
    (t : Nat) :
    ∀ (fuel d : Nat) (st : RunState) (q : List String) (cache : ProgressRecord)
      (trace : List ProgressRecord) (r : ProgressRecord),
      r ∈ (retryLoop b o items t fuel d st q cache trace).2.2.2 →
      r ∈ trace ∨ (∃ k, r.status = retryAttemptStatus k) ∨ r.status = "retrying" ∨
        (∃ m, r.status = retryRemainingStatus m) := by
  intro fuel
  induction fuel with
  | zero => intro d st q cache trace r hr; exact Or.inl hr
  | succ fuel ih =>
    intro d st q cache trace r hr
    by_cases hq : q.isEmpty = true
    · simp only [retryLoop, if_pos hq] at hr
      exact Or.inl hr
    · simp only [retryLoop, if_neg hq] at hr
      by_cases hq1 : (retryRound b o items t (d + 1) st q trace).next_queue.isEmpty = true
      · simp only [if_pos hq1] at hr
        rcases retryRound_trace_mem b o items t (d + 1) st q trace r hr with h | h | h
        · exact Or.inl h
        · exact Or.inr (Or.inl ⟨d + 1, h⟩)
        · exact Or.inr (Or.inr (Or.inl h))
      · simp only [if_neg hq1] at hr
        rcases ih (d + 1) _ _ _ _ r hr with h | h | h | h
        · simp only [List.mem_append, List.mem_singleton] at h
          rcases h with h | h
          · rcases retryRound_trace_mem b o items t (d + 1) st q trace r h with h2 | h2 | h2
            · exact Or.inl h2
            · exact Or.inr (Or.inl ⟨d + 1, h2⟩)
            · exact Or.inr (Or.inr (Or.inl h2))
          · subst h
            exact Or.inr (Or.inr (Or.inr ⟨_, rfl⟩))
        · exact Or.inr (Or.inl h)
        · exact Or.inr (Or.inr (Or.inl h))
        · exact Or.inr (Or.inr (Or.inr h))

theorem runTrace_eq (b : List (String × Nat)) (o : FetchOracle) (items : List Item) :
    runTrace b o items =
      (retryLoop b o items items.length max_retry_attempts 0
        (firstPass b o items.length items (runCtx0 items)).st
        (firstPass b o items.length items (runCtx0 items)).retry_queue
        (update_full_data items.length (firstPass b o items.length items (runCtx0 items)).st
          (if (firstPass b o items.length items (runCtx0 items)).retry_queue.isEmpty
            then "completing" else "retrying"))
        ((firstPass b o items.length items (runCtx0 items)).trace ++
          [update_full_data items.length (firstPass b o items.length items (runCtx0 items)).st
            (if (firstPass b o items.length items (runCtx0 items)).retry_queue.isEmpty
              then "completing" else "retrying")])).2.2.2 ++
      [update_full_data items.length
        (retryLoop b o items items.length max_retry_attempts 0
          (firstPass b o items.length items (runCtx0 items)).st
          (firstPass b o items.length items (runCtx0 items)).retry_queue
          (update_full_data items.length (firstPass b o items.length items (runCtx0 items)).st
            (if (firstPass b o items.length items (runCtx0 items)).retry_queue.isEmpty
              then "completing" else "retrying"))
          ((firstPass b o items.length items (runCtx0 items)).trace ++
            [update_full_data items.length
              (firstPass b o items.length items (runCtx0 items)).st
              (if (firstPass b o items.length items (runCtx0 items)).retry_queue.isEmpty
                then "completing" else "retrying")])).1 "complete"] := rfl

/-- **C3** amended: every status the orchestrator ever publishes is one of
the five literals `starting|fetching|retrying|completing|complete` **or**
one of the two parameterised retry strings `retrying (attempt k)` /
`retrying (remaining: m)`; the latter two really occur, so the five-literal
claim as stated is false. -/
theorem c3_status_values (b : List (String × Nat)) (o : FetchOracle) (items : List Item) :
    ∀ r ∈ runTrace b o items, statusOk r.status := by
  intro r hr
  rw [runTrace_eq] at hr
  simp only [List.mem_append, List.mem_singleton] at hr
  rcases hr with hr | hr
  · rcases retryLoop_trace_mem b o items items.length max_retry_attempts 0 _ _ _ _ r hr
      with h | h | h | h
    · simp only [List.mem_append, List.mem_singleton] at h
      rcases h with h | h
      · rcases firstPass_trace_mem b o items.length items (runCtx0 items) r h with h2 | h2
        · have : r = initRecord items.length := by
            simpa [runCtx0] using h2
          subst this
          exact Or.inl (by simp [coreStatuses, initRecord])
        · exact Or.inl (by simp [coreStatuses, h2])
      · subst h
        by_cases hc : (firstPass b o items.length items (runCtx0 items)).retry_queue.isEmpty = true
        · exact Or.inl (by simp [coreStatuses, update_full_data, hc])
        · exact Or.inl (by simp [coreStatuses, update_full_data, hc])
    · exact Or.inr (Or.inl h)
    · exact Or.inl (by simp [coreStatuses, h])
    · exact Or.inr (Or.inr h)
  · subst hr
    exact Or.inl (by simp [coreStatuses, update_full_data])

/-- Witness for `c3_status_values` at the first record of a concrete run. -/
theorem c3_status_values_witness :
    statusOk (initRecord 1).status :=
  c3_status_values [] always429 [soloItem] (initRecord 1) (by decide)

theorem dropWhile_eq_drop {α : Type} (p : α → Bool) (l : List α) :
    l.dropWhile p = l.drop (l.takeWhile p).length := by
  induction l with
  | nil => rfl
  | cons a tl ih =>
    by_cases h : p a = true
    · simp [List.dropWhile_cons, List.takeWhile_cons, h, ih]
    · simp [List.dropWhile_cons, List.takeWhile_cons, h]

theorem take_takeWhile_length {α : Type} (p : α → Bool) (l : List α) :
    l.take (l.takeWhile p).length = l.takeWhile p := by
  induction l with
  | nil => rfl
  | cons a tl ih =>
    by_cases h : p a = true
    · simp [List.takeWhile_cons, h, ih]
    · simp [List.takeWhile_cons, h]

theorem length_takeWhile_le {α : Type} (p : α → Bool) (l : List α) :
    (l.takeWhile p).length ≤ l.length := by
  induction l with
  | nil => simp
  | cons a tl ih =>
    by_cases h : p a = true <;> simp [List.takeWhile_cons, h] <;> omega

theorem evictOld_eq_drop {α : Type} [LinearOrderedCommRing α] (window now : α) (rs : List α) :
    evictOld window now rs
      = rs.drop (rs.takeWhile (fun t => decide (t ≤ now - window))).length :=
  dropWhile_eq_drop _ _

theorem evictOld_length_le {α : Type} [LinearOrderedCommRing α] (window now : α) (rs : List α) :
    (evictOld window now rs).length ≤ rs.length := by
  rw [evictOld_eq_drop, List.length_drop]
  omega

theorem evict_suffix {α : Type} [LinearOrderedCommRing α] (window now : α) (H rs : List α)
    (k : Nat) (hk : k ≤ H.length) (hrs : rs = H.drop k) :
    ∃ k2, k ≤ k2 ∧ k2 ≤ H.length ∧ evictOld window now rs = H.drop k2 ∧
      (∀ t ∈ H.take k2, t ∈ H.take k ∨ t + window ≤ now) := by
  refine ⟨k + (rs.takeWhile (fun t => decide (t ≤ now - window))).length, by omega, ?_, ?_, ?_⟩
  · have h1 := length_takeWhile_le (fun t => decide (t ≤ now - window)) rs
    have h2 : rs.length = H.length - k := by
      rw [hrs, List.length_drop]
    omega
  · rw [evictOld_eq_drop, hrs, List.drop_drop, Nat.add_comm]
  · intro t ht
    rw [List.take_add] at ht
    rcases List.mem_append.mp ht with h | h
    · exact Or.inl h
    · right
      rw [← hrs, take_takeWhile_length] at h
      have hp := List.mem_takeWhile_imp h
      rw [decide_eq_true_eq] at hp
      exact le_sub_iff_add_le.mp hp

theorem rl_inv_finish {α : Type} [LinearOrderedCommRing α] (maxReq : Nat) (window : α)
    (H rs' : List α) (t' : α) (k' : Nat)
    (hk : k' ≤ H.length) (hrs : rs' = H.drop k')
    (hdrop : ∀ t ∈ H.take k', t + window ≤ t')
    (hlen : rs'.length < maxReq)
    (hub : ∀ t ∈ H, t ≤ t')
    (hwin : ∀ a : α, H.countP (inTrailingWindow window a) ≤ maxReq) :
    RLInv maxReq window (H ++ [t']) (rs' ++ [t']) t' := by
  refine ⟨⟨k', ?_, ?_, ?_⟩, ?_, ?_, ?_⟩
  · simp only [List.length_append, List.length_singleton]
    omega
  · rw [List.drop_append_of_le_length hk, hrs]
  · rw [List.take_append_of_le_length hk]
    exact hdrop
  · simp only [List.length_append, List.length_singleton]
    omega
  · intro t ht
    rcases List.mem_append.mp ht with h | h
    · exact hub t h
    · rw [List.mem_singleton.mp h]
  · intro a
    rw [List.countP_append]
    by_cases hp : inTrailingWindow window a t' = true
    · have hc1 : List.countP (inTrailingWindow window a) [t'] = 1 := by
        simp [List.countP_cons, hp]
      rw [hc1]
      obtain ⟨h1, h2⟩ : (a - window < t') ∧ (t' ≤ a) := by
        simpa [inTrailingWindow, Bool.and_eq_true, decide_eq_true_eq] using hp
      have hsplit : H.countP (inTrailingWindow window a)
          = (H.take k').countP (inTrailingWindow window a)
            + (H.drop k').countP (inTrailingWindow window a) := by
        conv_lhs => rw [← List.take_append_drop k' H]
        exact List.countP_append _ _ _
      have htake0 : (H.take k').countP (inTrailingWindow window a) = 0 := by
        rw [List.countP_eq_zero]
        intro t ht
        have htw := hdrop t ht
        have hta : t ≤ a - window := le_sub_iff_add_le.mpr (le_trans htw h2)
        simp only [inTrailingWindow, Bool.and_eq_true, decide_eq_true_eq, not_and]
        intro hlt
        exact absurd hlt (not_lt.mpr hta)
      have hdc : (H.drop k').countP (inTrailingWindow window a) ≤ rs'.length := by
        rw [← hrs]
        exact List.countP_le_length _
      rw [hsplit, htake0]
      omega
    · have hc0 : List.countP (inTrailingWindow window a) [t'] = 0 := by
        simp only [Bool.not_eq_true] at hp
        simp [List.countP_cons, hp]
      rw [hc0]
      simpa using hwin a

theorem wait_if_needed_inv {α : Type} [LinearOrderedCommRing α] {maxReq : Nat} {window : α}
    {H rs : List α} {last : α} (hmax : 0 < maxReq)
    (inv : RLInv maxReq window H rs last) (now : α) (hnow : last ≤ now) :
    RLInv maxReq window (H ++ [(wait_if_needed maxReq window rs now).2])
      (wait_if_needed maxReq window rs now).1
      (wait_if_needed maxReq window rs now).2 := by
  obtain ⟨⟨k, hk, hrs, hdropped⟩, hlen, hub, hwin⟩ := inv
  by_cases hcap : maxReq ≤ (evictOld window now rs).length
  · by_cases hpos : 0 < window - (now - (evictOld window now rs).headD 0)
    · -- at the cap: sleep to head + window, re-evict, record
      obtain ⟨k2, hk2a, hk2b, he2, hd2⟩ := evict_suffix window now H rs k hk hrs
      obtain ⟨h0, tail, htl⟩ : ∃ h0 tail, evictOld window now rs = h0 :: tail := by
        cases hEv : evictOld window now rs with
        | nil =>
          rw [hEv] at hcap
          simp at hcap
          omega
        | cons a b => exact ⟨a, b, rfl⟩
      have hhd : (evictOld window now rs).headD 0 = h0 := by
        rw [htl]
        rfl
      have hpos2 : (0 : α) < window - (now - h0) := by
        rw [← hhd]
        exact hpos
      obtain ⟨k3, hk3a, hk3b, he3, hd3⟩ := evict_suffix window
        (now + (window - (now - h0))) H (evictOld window now rs) k2 hk2b he2
      have hres : wait_if_needed maxReq window rs now
          = (evictOld window (now + (window - (now - (evictOld window now rs).headD 0)))
               (evictOld window now rs)
               ++ [now + (window - (now - (evictOld window now rs).headD 0))],
             now + (window - (now - (evictOld window now rs).headD 0))) := by
        simp only [wait_if_needed]
        rw [if_pos hcap, if_pos hpos]
      have hnow2 : now ≤ now + (window - (now - h0)) :=
        le_of_lt (lt_add_of_pos_right now hpos2)
      have hlen3 : (evictOld window (now + (window - (now - h0)))
          (evictOld window now rs)).length < maxReq := by
        have hph0 : decide (h0 ≤ now + (window - (now - h0)) - window) = true := by
          rw [decide_eq_true_eq]
          have heq : now + (window - (now - h0)) - window = h0 := by ring
          rw [heq]
        have hsame : evictOld window (now + (window - (now - h0))) (evictOld window now rs)
            = tail.dropWhile (fun t => decide (t ≤ now + (window - (now - h0)) - window)) := by
          rw [htl]
          unfold evictOld
          exact List.dropWhile_cons_of_pos
            (p := fun t => decide (t ≤ now + (window - (now - h0)) - window))
            (a := h0) (l := tail) hph0
        rw [hsame]
        have h1 : (tail.dropWhile
            (fun t => decide (t ≤ now + (window - (now - h0)) - window))).length
            ≤ tail.length := by
          rw [dropWhile_eq_drop, List.length_drop]
          omega
        have h2 : (evictOld window now rs).length ≤ rs.length := evictOld_length_le _ _ _
        rw [htl] at h2
        simp only [List.length_cons] at h2
        omega
      rw [hres, hhd]
      apply rl_inv_finish maxReq window H _ _ k3 hk3b he3 ?_ ?_ ?_ hwin
      · intro t ht
        rcases hd3 t ht with h | h
        · rcases hd2 t h with h2 | h2
          · exact le_trans (hdropped t h2) (le_trans hnow hnow2)
          · exact le_trans h2 hnow2
        · exact h
      · exact hlen3
      · intro t ht
        exact le_trans (hub t ht) (le_trans hnow hnow2)
    · -- impossible: the surviving head is strictly inside the window
      exfalso
      obtain ⟨h0, tail, htl⟩ : ∃ h0 tail, evictOld window now rs = h0 :: tail := by
        cases hEv : evictOld window now rs with
        | nil =>
          rw [hEv] at hcap
          simp at hcap
          omega
        | cons a b => exact ⟨a, b, rfl⟩
      have hph : decide (h0 ≤ now - window) = false := by
        have hh := List.head?_dropWhile_not (fun t => decide (t ≤ now - window)) rs
        unfold evictOld at htl
        rw [htl] at hh
        simpa using hh
      rw [decide_eq_false_iff_not, not_le] at hph
      have hhd : (evictOld window now rs).headD 0 = h0 := by
        rw [htl]
        rfl
      rw [hhd] at hpos
      apply hpos
      rw [sub_pos]
      rw [sub_lt_iff_lt_add] at hph ⊢
      rw [add_comm]
      exact hph
  · -- below the cap: evict and record immediately
    obtain ⟨k2, hk2a, hk2b, he2, hd2⟩ := evict_suffix window now H rs k hk hrs
    have hres : wait_if_needed maxReq window rs now = (evictOld window now rs ++ [now], now) := by
      simp only [wait_if_needed]
      rw [if_neg hcap]
    rw [hres]
    apply rl_inv_finish maxReq window H _ _ k2 hk2b he2 ?_ ?_ ?_ hwin
    · intro t ht
      rcases hd2 t ht with h | h
      · exact le_trans (hdropped t h) hnow
      · exact h
    · omega
    · intro t ht
      exact le_trans (hub t ht) hnow

theorem rlTimes_inv {α : Type} [LinearOrderedCommRing α] (maxReq : Nat) (window : α)
    (hmax : 0 < maxReq) :
    ∀ (nows : List α) (H rs : List α) (last : α),
      RLInv maxReq window H rs last → rlAdmissible maxReq window rs last nows = true →
      ∀ a : α, (H ++ rlTimes maxReq window rs nows).countP (inTrailingWindow window a)
        ≤ maxReq := by
  intro nows
  induction nows with
  | nil =>
    intro H rs last inv _ a
    simpa using inv.2.2.2 a
  | cons now rest ih =>
    intro H rs last inv hadm a
    simp only [rlAdmissible, Bool.and_eq_true, decide_eq_true_eq] at hadm
    obtain ⟨hnow, hadm2⟩ := hadm
    have inv2 := wait_if_needed_inv hmax inv now hnow
    have hrec := ih (H ++ [(wait_if_needed maxReq window rs now).2])
      (wait_if_needed maxReq window rs now).1
      (wait_if_needed maxReq window rs now).2 inv2 hadm2 a
    simp only [rlTimes]
    rw [show H ++ ((wait_if_needed maxReq window rs now).2
        :: rlTimes maxReq window (wait_if_needed maxReq window rs now).1 rest)
      = (H ++ [(wait_if_needed maxReq window rs now).2])
        ++ rlTimes maxReq window (wait_if_needed maxReq window rs now).1 rest by
      simp]
    exact hrec

/-- **C5.** Over any synthetic clock in a linearly ordered ring, and for any
admissible sequence of `wait_if_needed` calls starting from an empty deque,
the rate limiter never records more than `maxReq` timestamps within any
trailing window `(a - window, a]`; and a caller that finds the deque at the
cap returns (after sleeping) exactly when the oldest surviving timestamp
leaves the window, at time `oldest + window`. -/
theorem c5_rate_limiter {α : Type} [LinearOrderedCommRing α] (maxReq : Nat) (window : α)
    (nows : List α) (hmax : 0 < maxReq)
    (hadm : rlAdmissible maxReq window ([] : List α) 0 nows = true) :
    (∀ a : α, (rlTimes maxReq window [] nows).countP (inTrailingWindow window a) ≤ maxReq) ∧
    (∀ (rs : List α) (now : α), maxReq ≤ (evictOld window now rs).length →
      0 < window - (now - (evictOld window now rs).headD 0) →
      (wait_if_needed maxReq window rs now).2
        = (evictOld window now rs).headD 0 + window) := by
  constructor
  · intro a
    have h0 : RLInv maxReq window ([] : List α) [] 0 := by
      refine ⟨⟨0, by simp, rfl, by simp⟩, by simp, by simp, ?_⟩
      intro a2
      simp
    have h := rlTimes_inv maxReq window hmax nows [] [] 0 h0 hadm a
    simpa using h
  · intro rs now hcap hpos
    simp only [wait_if_needed]
    rw [if_pos hcap, if_pos hpos]
    ring

/-- Witness for `c5_rate_limiter` over the integer clock `[0, 0, 0, 2]` with
`maxReq = 2`, `window = 1`, evaluated at `a = 0`. -/
theorem c5_rate_limiter_witness :
    (0 < 2) ∧ rlAdmissible 2 (1 : ℤ) [] 0 [0, 0, 0, 2] = true ∧
    (rlTimes 2 (1 : ℤ) [] [0, 0, 0, 2]).countP (inTrailingWindow 1 0) ≤ 2 :=
  ⟨by decide, by decide,
    (c5_rate_limiter 2 (1 : ℤ) [0, 0, 0, 2] (by decide) (by decide)).1 0⟩

end WfMarket
